import Mathlib

/-!
Verification of the streaming structured-output extraction and self-repair
engine implemented in `src/app/api/generate-ai-code-stream/route.ts` (the
`POST` handler, lines 1560-2128).  Strings are embedded as `List Char`;
every definition mirrors the TypeScript source, with the source line
numbers recorded in the doc comments.  The JavaScript regular expressions
used by the source are embedded as explicit scanners whose backtracking
behaviour agrees with the JS engine on the patterns in question.
-/

set_option maxHeartbeats 1000000
set_option maxRecDepth 10000

namespace GenStream

/-- Character-list representation of a string literal. -/
def str (s : String) : List Char := s.data

/-- JS `String.prototype.includes`: substring containment. -/
def containsSub (pat : List Char) : List Char → Bool
  | [] => pat.isEmpty
  | c :: rest => pat.isPrefixOf (c :: rest) || containsSub pat rest

/-- Split a string at the first occurrence of `pat`, returning the text
before the occurrence and the text after it. -/
def splitFirst (pat : List Char) : List Char → Option (List Char × List Char)
  | [] => if pat.isEmpty then some ([], []) else none
  | c :: rest =>
    if pat.isPrefixOf (c :: rest) then some ([], (c :: rest).drop pat.length)
    else
      match splitFirst pat rest with
      | some (a, b) => some (c :: a, b)
      | none => none

/-- JS `String.prototype.trim` (ASCII whitespace). -/
def jsTrim (s : List Char) : List Char :=
  ((s.dropWhile Char.isWhitespace).reverse.dropWhile Char.isWhitespace).reverse

/-- JS word character, the `\w` / `[a-zA-Z0-9_]` class. -/
def isWordChar (c : Char) : Bool :=
  (('a' ≤ c && c ≤ 'z') || ('A' ≤ c && c ≤ 'Z') || ('0' ≤ c && c ≤ '9') || c = '_')

/-- Decimal rendering of a counter, for interpolated messages. -/
def natToChars (n : Nat) : List Char := (toString n).data

theorem isPrefixOf_length {p s : List Char} (h : p.isPrefixOf s = true) :
    p.length ≤ s.length := by
  induction p generalizing s with
  | nil => simp
  | cons c cs ih =>
    cases s with
    | nil => simp [List.isPrefixOf] at h
    | cons d ds =>
      simp only [List.isPrefixOf, Bool.and_eq_true] at h
      simpa using Nat.succ_le_succ (ih h.2)

theorem isPrefixOf_eq_append {p s : List Char} (h : p.isPrefixOf s = true) :
    s = p ++ s.drop p.length := by
  induction p generalizing s with
  | nil => simp
  | cons c cs ih =>
    cases s with
    | nil => simp [List.isPrefixOf] at h
    | cons d ds =>
      simp only [List.isPrefixOf, Bool.and_eq_true, beq_iff_eq] at h
      obtain ⟨rfl, h2⟩ := h
      simpa using ih h2

theorem isPrefixOf_append_self (p s : List Char) : p.isPrefixOf (p ++ s) = true := by
  induction p with
  | nil => simp [List.isPrefixOf]
  | cons c cs ih => simp [List.isPrefixOf, ih]

theorem splitFirst_eq {pat s a b : List Char} (h : splitFirst pat s = some (a, b)) :
    s = a ++ pat ++ b := by
  induction s generalizing a with
  | nil =>
    by_cases hp : pat.isEmpty <;> simp [splitFirst, hp] at h
    obtain ⟨rfl, rfl⟩ := h
    simp [List.isEmpty_iff.mp hp]
  | cons c rest ih =>
    by_cases hp : pat.isPrefixOf (c :: rest) = true
    · simp only [splitFirst, hp, if_pos] at h
      obtain ⟨rfl, rfl⟩ := (by simpa using h : ([] : List Char) = a ∧ (c :: rest).drop pat.length = b)
      simpa using isPrefixOf_eq_append hp
    · simp only [splitFirst, hp] at h
      cases hrec : splitFirst pat rest with
      | none => simp [hrec] at h
      | some ab =>
        obtain ⟨a', b'⟩ := ab
        simp only [hrec] at h
        obtain ⟨rfl, rfl⟩ := (by simpa using h : c :: a' = a ∧ b' = b)
        simpa using ih hrec

theorem splitFirst_length_le {pat s a b : List Char} (h : splitFirst pat s = some (a, b)) :
    b.length ≤ s.length := by
  have := splitFirst_eq h
  subst this
  simp
  omega

/-- No occurrence of `pat` starts strictly before the one `splitFirst` found. -/
theorem splitFirst_leftmost {pat s a b : List Char} (h : splitFirst pat s = some (a, b)) :
    ∀ i < a.length, pat.isPrefixOf (s.drop i) = false := by
  induction s generalizing a with
  | nil =>
    by_cases hp : pat.isEmpty <;> simp [splitFirst, hp] at h
    obtain ⟨rfl, _⟩ := h
    intro i hi
    simp at hi
  | cons c rest ih =>
    by_cases hp : pat.isPrefixOf (c :: rest) = true
    · simp only [splitFirst, hp, if_pos] at h
      obtain ⟨rfl, _⟩ := (by simpa using h : ([] : List Char) = a ∧ (c :: rest).drop pat.length = b)
      intro i hi
      simp at hi
    · simp only [splitFirst, hp] at h
      cases hrec : splitFirst pat rest with
      | none => simp [hrec] at h
      | some ab =>
        obtain ⟨a', b'⟩ := ab
        simp only [hrec] at h
        obtain ⟨rfl, rfl⟩ := (by simpa using h : c :: a' = a ∧ b' = b)
        intro i hi
        cases i with
        | zero =>
          simp only [List.drop_zero]
          exact Bool.eq_false_iff.mpr hp
        | succ j =>
          have := ih hrec j (by simpa using Nat.lt_of_succ_lt_succ hi)
          simpa using this

theorem containsSub_false_not_prefixOf {pat s : List Char} (h : containsSub pat s = false) :
    pat.isPrefixOf s = false := by
  cases s with
  | nil =>
    simp [containsSub] at h
    cases pat with
    | nil => simp [List.isEmpty] at h
    | cons c cs => simp [List.isPrefixOf]
  | cons c rest =>
    simp only [containsSub, Bool.or_eq_false_iff] at h
    exact h.1

theorem containsSub_false_tail {pat : List Char} {c : Char} {rest : List Char}
    (h : containsSub pat (c :: rest) = false) : containsSub pat rest = false := by
  simp only [containsSub, Bool.or_eq_false_iff] at h
  exact h.2

/-! ### Marker literals (input grammar of route.ts) -/

/-- The opening of a file record marker, `<file path="` (12 characters). -/
def fileOpenLit : List Char := str "<file path=\""

/-- The closing file marker `</file>` (7 characters). -/
def fileCloseLit : List Char := str "</file>"

def pkgOpenLit : List Char := str "<package>"

def pkgCloseLit : List Char := str "</package>"

/-- Tag names of the open/close marker detection regexes at route.ts:1686-1687. -/
def tagNames : List (List Char) :=
  [str "file", str "package", str "packages", str "explanation",
   str "command", str "structure", str "template"]

/-- `/<(file|package|…|template)\b/` matches at the start of `s`: a `<`, one of
the tag names, then a word boundary (non-word character or end of input). -/
def openTagAt (s : List Char) : Bool :=
  tagNames.any (fun t =>
    ('<' :: t).isPrefixOf s &&
      (match s.drop (t.length + 1) with
       | [] => true
       | c :: _ => !isWordChar c))

/-- route.ts:1686 — `hasOpenTag`: the open-marker regex tests true on the chunk. -/
def hasOpenTag : List Char → Bool
  | [] => false
  | c :: rest => openTagAt (c :: rest) || hasOpenTag rest

/-- route.ts:1687 — `hasCloseTag`: the chunk contains `</tag>` for some tag. -/
def hasCloseTag (s : List Char) : Bool :=
  tagNames.any (fun t => containsSub ('<' :: '/' :: t ++ ['>']) s)

/-! ### File record extraction (regexes at route.ts:1840 and 1900/1942) -/

/-- One match of `<file path="([^"]+)">([\s\S]*?)<\/file>` anchored at the start
of `s`, returning `(path, content, rest-after-match)`.  The greedy `[^"]+` run
ends at the first `"`, which must be followed by `>`; the lazy body ends at the
first `</file>`. -/
def fileMatchAt (s : List Char) : Option (List Char × List Char × List Char) :=
  if fileOpenLit.isPrefixOf s then
    let t := s.drop 12
    let path := t.takeWhile (fun c => c ≠ '"')
    if path.isEmpty then none
    else
      let t2 := t.drop path.length
      if (str "\">").isPrefixOf t2 then
        match splitFirst fileCloseLit (t2.drop 2) with
        | some (content, rest) => some (path, content, rest)
        | none => none
      else none
  else none

/-- One match of `<file path="([^"]+)">([\s\S]*?)(?:<\/file>|$)` anchored at the
start of `s` (the truncation-scan variant: an unterminated record matches to the
end of the input). -/
def truncMatchAt (s : List Char) : Option (List Char × List Char × List Char) :=
  if fileOpenLit.isPrefixOf s then
    let t := s.drop 12
    let path := t.takeWhile (fun c => c ≠ '"')
    if path.isEmpty then none
    else
      let t2 := t.drop path.length
      if (str "\">").isPrefixOf t2 then
        match splitFirst fileCloseLit (t2.drop 2) with
        | some (content, rest) => some (path, content, rest)
        | none => some (path, t2.drop 2, [])
      else none
  else none

theorem fileMatchAt_length {s p c r : List Char}
    (h : fileMatchAt s = some (p, c, r)) : r.length < s.length := by
  unfold fileMatchAt at h
  simp only [] at h
  split at h
  · rename_i h1
    split at h
    · exact absurd h (by simp)
    · split at h
      · rename_i h3
        split at h
        · rename_i content rest h4
          obtain ⟨rfl, rfl, rfl⟩ : _ ∧ content = c ∧ rest = r := by simpa using h
          have l1 := isPrefixOf_length h1
          have l3 := isPrefixOf_length h3
          have l4 := splitFirst_length_le h4
          have e1 : fileOpenLit.length = 12 := by decide
          have e3 : (str "\">").length = 2 := by decide
          rw [e1] at l1; rw [e3] at l3
          simp only [List.length_drop] at l3 l4 ⊢
          omega
        · exact absurd h (by simp)
      · exact absurd h (by simp)
  · exact absurd h (by simp)

theorem truncMatchAt_length {s p c r : List Char}
    (h : truncMatchAt s = some (p, c, r)) : r.length < s.length := by
  unfold truncMatchAt at h
  simp only [] at h
  split at h
  · rename_i h1
    split at h
    · exact absurd h (by simp)
    · split at h
      · rename_i h3
        split at h
        · rename_i content rest h4
          obtain ⟨rfl, rfl, rfl⟩ : _ ∧ content = c ∧ rest = r := by simpa using h
          have l1 := isPrefixOf_length h1
          have l3 := isPrefixOf_length h3
          have l4 := splitFirst_length_le h4
          have e1 : fileOpenLit.length = 12 := by decide
          have e3 : (str "\">").length = 2 := by decide
          rw [e1] at l1; rw [e3] at l3
          simp only [List.length_drop] at l3 l4 ⊢
          omega
        · rename_i h4
          obtain ⟨rfl, rfl, rfl⟩ : _ ∧ _ = c ∧ ([] : List Char) = r := by simpa using h
          have l1 := isPrefixOf_length h1
          have e1 : fileOpenLit.length = 12 := by decide
          rw [e1] at l1
          simp only [List.length_nil]
          omega
      · exact absurd h (by simp)
  · exact absurd h (by simp)

/-- One match of `<package>([^<]+)<\/package>` anchored at the start of `s`,
returning `(name, rest-after-match)` (route.ts:1720). -/
def pkgMatchAt (s : List Char) : Option (List Char × List Char) :=
  if pkgOpenLit.isPrefixOf s then
    let t := s.drop 9
    let name := t.takeWhile (fun c => c ≠ '<')
    if name.isEmpty then none
    else if pkgCloseLit.isPrefixOf (t.drop name.length) then
      some (name, t.drop (name.length + 10))
    else none
  else none

theorem pkgMatchAt_length {s n r : List Char}
    (h : pkgMatchAt s = some (n, r)) : r.length < s.length := by
  unfold pkgMatchAt at h
  simp only [] at h
  split at h
  · rename_i h1
    split at h
    · exact absurd h (by simp)
    · split at h
      · rename_i h3
        obtain ⟨rfl, rfl⟩ : _ ∧ _ = r := by simpa using h
        have l1 := isPrefixOf_length h1
        have l3 := isPrefixOf_length h3
        have e1 : pkgOpenLit.length = 9 := by decide
        have e3 : pkgCloseLit.length = 10 := by decide
        rw [e1] at l1; rw [e3] at l3
        simp only [List.length_drop] at l3 ⊢
        omega
      · exact absurd h (by simp)
  · exact absurd h (by simp)

theorem dropWhile_length_le (p : Char → Bool) (l : List Char) :
    (l.dropWhile p).length ≤ l.length := by
  induction l with
  | nil => simp
  | cons c rest ih =>
    by_cases hc : p c = true
    · simp only [List.dropWhile, hc]
      exact Nat.le_succ_of_le ih
    · simp [List.dropWhile, hc]

/-- route.ts:1840-1844 — every match of the global regex
`/<file path="([^"]+)">([\s\S]*?)<\/file>/g` over the input, in order,
as `(path, raw content)` pairs.  Structured with a fuel argument (one unit
per position scanned; a match always consumes at least one character, so
`s.length` fuel is always sufficient). -/
def extractFilesFuel : Nat → List Char → List (List Char × List Char)
  | 0, _ => []
  | _ + 1, [] => []
  | fuel + 1, c :: rest =>
    match fileMatchAt (c :: rest) with
    | some (path, content, after) => (path, content) :: extractFilesFuel fuel after
    | none => extractFilesFuel fuel rest

def extractFilesAux (s : List Char) : List (List Char × List Char) :=
  extractFilesFuel s.length s

/-- route.ts:1900-1902 and 1942-1945 — every match of the global regex
`/<file path="([^"]+)">([\s\S]*?)(?:<\/file>|$)/g`, in order. -/
def truncScanFuel : Nat → List Char → List (List Char × List Char)
  | 0, _ => []
  | _ + 1, [] => []
  | fuel + 1, c :: rest =>
    match truncMatchAt (c :: rest) with
    | some (path, content, after) => (path, content) :: truncScanFuel fuel after
    | none => truncScanFuel fuel rest

def truncScanAux (s : List Char) : List (List Char × List Char) :=
  truncScanFuel s.length s

/-- route.ts:1720-1735 — the `exec` loop of `/<package>([^<]+)<\/package>/g`
starting at index `i`: the matched names in order, together with the final
`lastIndex` (the index just past the last match; `0` when there is no match,
matching the loop-local `let lastIndex = 0`). -/
def scanPkgsFuel : Nat → List Char → Nat → List (List Char) × Nat
  | 0, _, _ => ([], 0)
  | _ + 1, [], _ => ([], 0)
  | fuel + 1, c :: rest, i =>
    match pkgMatchAt (c :: rest) with
    | some (name, after) =>
      let j := i + (19 + name.length)
      let r := scanPkgsFuel fuel after j
      (name :: r.1, if r.2 = 0 then j else r.2)
    | none => scanPkgsFuel fuel rest (i + 1)

def scanPkgsAux (s : List Char) (i : Nat) : List (List Char) × Nat :=
  scanPkgsFuel s.length s i

/-- The opening of the replacement pattern built at route.ts:2030-2033 for the
regex-escaped literal path `p`: the literal `<file path="p">`. -/
def repairPat (p : List Char) : List Char := fileOpenLit ++ p ++ str "\">"

/-- route.ts:2030-2047 — one match, anchored at the start of `s`, of the global
replacement pattern `<file path="P">[\s\S]*?(?:<\/file>|$)` built for the
regex-escaped literal path `P`; returns the input remaining after the span. -/
def repairMatchAt (p s : List Char) : Option (List Char) :=
  if (repairPat p).isPrefixOf s then
    match splitFirst fileCloseLit (s.drop (repairPat p).length) with
    | some (_, rest) => some rest
    | none => some []
  else none

theorem repairMatchAt_length {p s r : List Char}
    (h : repairMatchAt p s = some r) : r.length < s.length := by
  unfold repairMatchAt at h
  split at h
  · rename_i h1
    have l1 := isPrefixOf_length h1
    have e1 : 14 ≤ (repairPat p).length := by
      simp [repairPat, fileOpenLit, str]
    split at h
    · rename_i a rest h4
      obtain rfl : rest = r := by simpa using h
      have l4 := splitFirst_length_le h4
      simp only [List.length_drop] at l4
      omega
    · obtain rfl : ([] : List Char) = r := by simpa using h
      simp only [List.length_nil]
      omega
  · exact absurd h (by simp)

/-- JS `String.prototype.replace` with the global pattern of `repairMatchAt`
and a literal replacement: every matched span is replaced, scanning resumes
after each match (route.ts:2044-2047). -/
def repairReplaceFuel (p repl : List Char) : Nat → List Char → List Char
  | 0, s => s
  | _ + 1, [] => []
  | fuel + 1, c :: rest =>
    match repairMatchAt p (c :: rest) with
    | some after => repl ++ repairReplaceFuel p repl fuel after
    | none => c :: repairReplaceFuel p repl fuel rest

def repairReplaceAux (p repl s : List Char) : List Char :=
  repairReplaceFuel p repl s.length s

/-- The fuel argument is irrelevant once it covers the input length. -/
theorem repairReplaceFuel_congr (p repl : List Char) :
    ∀ f1 {s : List Char} (f2 : Nat), s.length ≤ f1 → s.length ≤ f2 →
      repairReplaceFuel p repl f1 s = repairReplaceFuel p repl f2 s := by
  intro f1
  induction f1 with
  | zero =>
    intro s f2 h1 _
    have hs : s = [] := List.length_eq_zero.mp (Nat.le_zero.mp h1)
    subst hs
    cases f2 <;> simp [repairReplaceFuel]
  | succ n ih =>
    intro s f2 h1 h2
    cases s with
    | nil => cases f2 <;> simp [repairReplaceFuel]
    | cons c rest =>
      cases f2 with
      | zero => simp at h2
      | succ m =>
        simp only [repairReplaceFuel]
        cases hm : repairMatchAt p (c :: rest) with
        | some after =>
          have hl := repairMatchAt_length hm
          simp only [List.length_cons] at h1 h2 hl
          dsimp only
          rw [ih m (by omega) (by omega)]
        | none =>
          simp only [List.length_cons] at h1 h2
          dsimp only
          rw [ih m (by omega) (by omega)]

theorem repairReplaceAux_cons (p repl : List Char) (c : Char) (rest : List Char) :
    repairReplaceAux p repl (c :: rest) =
      match repairMatchAt p (c :: rest) with
      | some after => repl ++ repairReplaceAux p repl after
      | none => c :: repairReplaceAux p repl rest := by
  unfold repairReplaceAux
  simp only [List.length_cons, repairReplaceFuel]
  cases hm : repairMatchAt p (c :: rest) with
  | some after =>
    have hl := repairMatchAt_length hm
    simp only [List.length_cons] at hl
    dsimp only
    rw [repairReplaceFuel_congr p repl rest.length after.length (by omega) (le_refl _)]
  | none => rfl

/-- JS `(s.match(/pat/g) || []).length` for a non-empty literal `pat`:
the number of non-overlapping occurrences, scanning left to right. -/
def countSubFuel (pat : List Char) : Nat → List Char → Nat
  | 0, _ => 0
  | _ + 1, [] => 0
  | fuel + 1, c :: rest =>
    if pat.isPrefixOf (c :: rest) && !pat.isEmpty then
      1 + countSubFuel pat fuel (rest.drop (pat.length - 1))
    else countSubFuel pat fuel rest

def countSub (pat s : List Char) : Nat := countSubFuel pat s.length s

/-- route.ts:1743 — `text.match(/<file path="([^"]+)"/)`: first full match,
returning the captured path. -/
def filePathMatchAt (s : List Char) : Option (List Char) :=
  if fileOpenLit.isPrefixOf s then
    let t := s.drop 12
    let path := t.takeWhile (fun c => c ≠ '"')
    if path.isEmpty then none
    else if ['"'].isPrefixOf (t.drop path.length) then some path else none
  else none

def firstFileTagPath : List Char → Option (List Char)
  | [] => none
  | c :: rest =>
    match filePathMatchAt (c :: rest) with
    | some p => some p
    | none => firstFileTagPath rest

/-- JS `String.prototype.split('/')`. -/
def splitSlash : List Char → List (List Char)
  | [] => [[]]
  | c :: rest =>
    if c = '/' then [] :: splitSlash rest
    else
      match splitSlash rest with
      | h :: tl => (c :: h) :: tl
      | [] => [[c]]

/-- `path.split('/').pop()`: the segment after the last slash. -/
def lastSlashSeg (p : List Char) : List Char := (splitSlash p).getLastD []

/-- JS `String.prototype.replace(pat, repl)` with string arguments:
replace the first occurrence only. -/
def replaceFirst (pat repl s : List Char) : List Char :=
  match splitFirst pat s with
  | some (a, b) => a ++ repl ++ b
  | none => s

/-- Separator class of the split regex `/[\n,]+/` (route.ts:1794). -/
def isSepChar (c : Char) : Bool := c = '\n' || c = ','

/-- JS `String.prototype.split(/[\n,]+/)`: runs of separators split once. -/
def splitSepsFuel : Nat → List Char → List (List Char)
  | 0, _ => [[]]
  | _ + 1, [] => [[]]
  | fuel + 1, c :: rest =>
    if isSepChar c then [] :: splitSepsFuel fuel (rest.dropWhile isSepChar)
    else
      match splitSepsFuel fuel rest with
      | h :: tl => (c :: h) :: tl
      | [] => [[c]]

def splitSeps (s : List Char) : List (List Char) := splitSepsFuel s.length s

/-- JS `Math.abs(a - b)` on counts. -/
def natDiff (a b : Nat) : Nat := if b ≤ a then a - b else b - a

/-- route.ts:1914 — `filePath.match(/\.(jsx?|tsx?)$/)`. -/
def isJsxPath (p : List Char) : Bool :=
  (str ".js").isSuffixOf p || (str ".jsx").isSuffixOf p ||
  (str ".ts").isSuffixOf p || (str ".tsx").isSuffixOf p

def isAsciiAlphanum (c : Char) : Bool :=
  ('a' ≤ c && c ≤ 'z') || ('A' ≤ c && c ≤ 'Z') || ('0' ≤ c && c ≤ '9')

/-- One anchored match of `<\/[a-zA-Z0-9]+>` (route.ts:1960). -/
def closeTagMatchAt (s : List Char) : Bool :=
  if (str "</").isPrefixOf s then
    let t := s.drop 2
    let run := t.takeWhile isAsciiAlphanum
    !run.isEmpty && ['>'].isPrefixOf (t.drop run.length)
  else false

/-- `content.match(/<\/[a-zA-Z0-9]+>/)` is non-null. -/
def hasProperCloseTag : List Char → Bool
  | [] => false
  | c :: rest => closeTagMatchAt (c :: rest) || hasProperCloseTag rest

/-- route.ts:1884 — first match of `/<explanation>([\s\S]*?)<\/explanation>/`. -/
def explanationOf (gc : List Char) : Option (List Char) :=
  match splitFirst (str "<explanation>") gc with
  | some (_, t) =>
    match splitFirst (str "</explanation>") t with
    | some (content, _) => some content
    | none => none
  | none => none

/-- One anchored match of the fence pattern ```` /```[\w]*\n([\s\S]*?)```/ ````
(route.ts:2038). -/
def fenceMatchAt (s : List Char) : Option (List Char) :=
  if (str "```").isPrefixOf s then
    let t := s.drop 3
    let lang := t.takeWhile isWordChar
    let t2 := t.drop lang.length
    if ['\n'].isPrefixOf t2 then
      match splitFirst (str "```") (t2.drop 1) with
      | some (content, _) => some content
      | none => none
    else none
  else none

def firstFence : List Char → Option (List Char)
  | [] => none
  | c :: rest =>
    match fenceMatchAt (c :: rest) with
    | some content => some content
    | none => firstFence rest

/-- route.ts:2036-2042 — strip a surrounding markdown code fence from a repair
response, if one is present. -/
def cleanCompleted (s : List Char) : List Char :=
  if containsSub (str "```") s then
    match firstFence s with
    | some content => content
    | none => s
  else s

/-- route.ts:1790-1792 — one anchored match of `/<packages>([\s\S]*?)<\/packages>/g`. -/
def packagesBlockMatchAt (s : List Char) : Option (List Char × List Char) :=
  if (str "<packages>").isPrefixOf s then
    match splitFirst (str "</packages>") (s.drop 10) with
    | some (content, rest) => some (content, rest)
    | none => none
  else none

theorem packagesBlockMatchAt_length {s b r : List Char}
    (h : packagesBlockMatchAt s = some (b, r)) : r.length < s.length := by
  unfold packagesBlockMatchAt at h
  split at h
  · rename_i h1
    have l1 := isPrefixOf_length h1
    have e1 : (str "<packages>").length = 10 := by decide
    rw [e1] at l1
    split at h
    · rename_i a rest h4
      obtain ⟨rfl, rfl⟩ : _ ∧ rest = r := by simpa using h
      have l4 := splitFirst_length_le h4
      simp only [List.length_drop] at l4
      omega
    · exact absurd h (by simp)
  · exact absurd h (by simp)

/-- All `<packages>…</packages>` block bodies of the output, in order. -/
def packagesBlocksFuel : Nat → List Char → List (List Char)
  | 0, _ => []
  | _ + 1, [] => []
  | fuel + 1, c :: rest =>
    match packagesBlockMatchAt (c :: rest) with
    | some (content, after) => content :: packagesBlocksFuel fuel after
    | none => packagesBlocksFuel fuel rest

def packagesBlocksAux (s : List Char) : List (List Char) :=
  packagesBlocksFuel s.length s

/-- route.ts:1793-1796 — names listed in one `<packages>` block body. -/
def packagesListOf (block : List Char) : List (List Char) :=
  ((splitSeps (jsTrim block)).map jsTrim).filter (fun p => !p.isEmpty)

/-! ### The ES-import scanner backing `extractPackagesFromCode`
(route.ts:1813-1837, regex at 1816) -/

/-- A quote character, the `['"]` class. -/
def isQuoteChar (c : Char) : Bool := c = '"' || c = Char.ofNat 39

/-- One alternative of the import-clause item `\{[^}]*\}|\*\s+as\s+\w+|\w+`,
anchored at the start of `s`; returns the rest after the item. -/
def clauseItem (s : List Char) : Option (List Char) :=
  match s with
  | [] => none
  | c :: t =>
    if c = '\x7b' then
      let inner := t.takeWhile (fun d => d ≠ '\x7d')
      if ['\x7d'].isPrefixOf (t.drop inner.length) then some (t.drop (inner.length + 1))
      else none
    else if c = '*' then
      let w1 := t.takeWhile Char.isWhitespace
      if w1.isEmpty then none
      else
        let t2 := t.drop w1.length
        if (str "as").isPrefixOf t2 then
          let t3 := t2.drop 2
          let w2 := t3.takeWhile Char.isWhitespace
          if w2.isEmpty then none
          else
            let t4 := t3.drop w2.length
            let idr := t4.takeWhile isWordChar
            if idr.isEmpty then none else some (t4.drop idr.length)
        else none
    else
      let idr := (c :: t).takeWhile isWordChar
      if idr.isEmpty then none else some ((c :: t).drop idr.length)

theorem clauseItem_length {s r : List Char} (h : clauseItem s = some r) :
    r.length ≤ s.length := by
  unfold clauseItem at h
  split at h
  · exact absurd h (by simp)
  · rename_i c t
    simp only [] at h
    split at h
    · split at h
      · obtain rfl : _ = r := by simpa using h
        simp only [List.length_drop, List.length_cons]
        omega
      · exact absurd h (by simp)
    · split at h
      · split at h
        · exact absurd h (by simp)
        · split at h
          · split at h
            · exact absurd h (by simp)
            · split at h
              · exact absurd h (by simp)
              · obtain rfl : _ = r := by simpa using h
                simp only [List.length_drop, List.length_cons]
                omega
          · exact absurd h (by simp)
      · split at h
        · exact absurd h (by simp)
        · obtain rfl : _ = r := by simpa using h
          simp only [List.length_drop, List.length_cons]
          omega

/-- The continuation `(?:\s*,\s*ITEM)*\s+from\s+` of the optional import
clause, with backtracking over the number of star iterations (greedy: a
further iteration is preferred, falling back to closing with `\s+from\s+`).
Each iteration consumes at least the comma, so `s.length + 1` fuel is always
sufficient. -/
def clauseRest : Nat → List Char → Option (List Char)
  | 0, _ => none
  | fuel + 1, s =>
    let ws1 := s.takeWhile Char.isWhitespace
    let t := s.drop ws1.length
    let iter : Option (List Char) :=
      match t with
      | ',' :: t2 =>
        let ws2 := t2.takeWhile Char.isWhitespace
        match clauseItem (t2.drop ws2.length) with
        | some rest => clauseRest fuel rest
        | none => none
      | _ => none
    match iter with
    | some r => some r
    | none =>
      if ws1.isEmpty then none
      else if (str "from").isPrefixOf t then
        let t2 := t.drop 4
        let ws2 := t2.takeWhile Char.isWhitespace
        if ws2.isEmpty then none else some (t2.drop ws2.length)
      else none

theorem clauseRest_length :
    ∀ (fuel : Nat) {s r : List Char}, clauseRest fuel s = some r → r.length ≤ s.length := by
  intro fuel
  induction fuel with
  | zero => intro s r h; simp [clauseRest] at h
  | succ n ih =>
    intro s r h
    unfold clauseRest at h
    simp only [] at h
    split at h
    · rename_i r' hiter
      obtain rfl : r' = r := by simpa using h
      split at hiter
      · rename_i t2 heq
        split at hiter
        · rename_i rest hitem
          have h1 := clauseItem_length hitem
          have h2 := ih hiter
          have h3 : t2.length < s.length := by
            have : (s.drop (s.takeWhile Char.isWhitespace).length).length =
                t2.length + 1 := by rw [heq]; simp
            simp only [List.length_drop] at this
            omega
          simp only [List.length_drop] at h1
          omega
        · exact absurd hiter (by simp)
      · exact absurd hiter (by simp)
    · split at h
      · exact absurd h (by simp)
      · split at h
        · split at h
          · exact absurd h (by simp)
          · obtain rfl : _ = r := by simpa using h
            simp only [List.length_drop]
            omega
        · exact absurd h (by simp)

/-- The optional group `(?:ITEM(?:\s*,\s*ITEM)*\s+from\s+)?` of the import
regex: its end position when it matches, the unchanged position otherwise.
(When the group matches, the position cannot alternatively hold a quoted
module specifier — the item alternatives never start with a quote — so no
further backtracking across the optional group is possible.) -/
def importClauseBase (t2 : List Char) : List Char :=
  match clauseItem t2 with
  | some rest =>
    match clauseRest (rest.length + 1) rest with
    | some r => r
    | none => t2
  | none => t2

theorem importClauseBase_length (t2 : List Char) :
    (importClauseBase t2).length ≤ t2.length := by
  unfold importClauseBase
  split
  · rename_i rest hitem
    split
    · rename_i r hrest
      exact le_trans (clauseRest_length _ hrest) (clauseItem_length hitem)
    · exact le_refl _
  · exact le_refl _

/-- The final `['"]([^'"]+)['"]` part of the import regex, anchored at the
start of `base`; returns the captured module path and the rest. -/
def quotedModule (base : List Char) : Option (List Char × List Char) :=
  match base with
  | [] => none
  | q :: u =>
    if isQuoteChar q then
      let name := u.takeWhile (fun d => !isQuoteChar d)
      if name.isEmpty then none
      else
        match u.drop name.length with
        | q2 :: rest2 => if isQuoteChar q2 then some (name, rest2) else none
        | [] => none
    else none

theorem quotedModule_length {b n r : List Char} (h : quotedModule b = some (n, r)) :
    r.length + 2 ≤ b.length := by
  unfold quotedModule at h
  split at h
  · exact absurd h (by simp)
  · rename_i q u
    simp only [] at h
    split at h
    · split at h
      · exact absurd h (by simp)
      · split at h
        · rename_i q2 rest2 heq
          split at h
          · obtain ⟨rfl, rfl⟩ : _ ∧ rest2 = r := by simpa using h
            have hlen : (u.drop (u.takeWhile (fun d => !isQuoteChar d)).length).length =
                rest2.length + 1 := by rw [heq]; simp
            simp only [List.length_drop, List.length_cons] at hlen ⊢
            omega
          · exact absurd h (by simp)
        · exact absurd h (by simp)
    · exact absurd h (by simp)

/-- One anchored match of the full import regex
`import\s+(?:(?:\{[^}]*\}|\*\s+as\s+\w+|\w+)(?:\s*,\s*(?:…))*\s+from\s+)?['"]([^'"]+)['"]`
of route.ts:1816, returning the captured module path and the rest of the input. -/
def importMatchAt (s : List Char) : Option (List Char × List Char) :=
  if (str "import").isPrefixOf s then
    let t := s.drop 6
    let ws := t.takeWhile Char.isWhitespace
    if ws.isEmpty then none
    else quotedModule (importClauseBase (t.drop ws.length))
  else none

theorem importMatchAt_length {s n r : List Char}
    (h : importMatchAt s = some (n, r)) : r.length < s.length := by
  unfold importMatchAt at h
  simp only [] at h
  split at h
  · rename_i h1
    split at h
    · exact absurd h (by simp)
    · have l1 := isPrefixOf_length h1
      have e1 : (str "import").length = 6 := by decide
      rw [e1] at l1
      have l2 := quotedModule_length h
      have l3 := importClauseBase_length
        ((s.drop 6).drop ((s.drop 6).takeWhile Char.isWhitespace).length)
      simp only [List.length_drop] at l2 l3 ⊢
      omega
  · exact absurd h (by simp)

/-- The `exec` loop over the global import regex: all captured module paths,
in order. -/
def importScanFuel : Nat → List Char → List (List Char)
  | 0, _ => []
  | _ + 1, [] => []
  | fuel + 1, c :: rest =>
    match importMatchAt (c :: rest) with
    | some (name, after) => name :: importScanFuel fuel after
    | none => importScanFuel fuel rest

def importScanAux (s : List Char) : List (List Char) := importScanFuel s.length s

/-- route.ts:1826-1828 — package identity of an import path: the first two
`/`-segments for a scoped (`@`-prefixed) name, the first segment otherwise. -/
def importPkgName (p : List Char) : List Char :=
  if ['@'].isPrefixOf p then
    match (splitSlash p).take 2 with
    | [a] => a
    | [a, b] => a ++ '/' :: b
    | _ => []
  else (splitSlash p).headD []

/-- route.ts:1822-1824 — import paths that count as external packages: not
relative, not absolute, not `react`/`react-dom`, not an `@/` alias. -/
def keepImport (p : List Char) : Bool :=
  !(['.'].isPrefixOf p) && !(['/'].isPrefixOf p) &&
  !(p == str "react") && !(p == str "react-dom") && !((str "@/").isPrefixOf p)

/-- route.ts:1813-1837 — `extractPackagesFromCode(content)`: the de-duplicated
package names referenced by import statements in a file payload. -/
def extractPackagesFromCode (content : List Char) : List (List Char) :=
  (importScanAux content).foldl
    (fun packages importPath =>
      if keepImport importPath then
        let packageName := importPkgName importPath
        if packages.contains packageName then packages else packages ++ [packageName]
      else packages) []

/-! ### Progress events and per-session streaming state -/

/-- The progress events written through `sendProgress` (route.ts:146-149).
Each constructor carries the type-specific payload fields of the JSON object. -/
inductive PEvent where
  | status (message : List Char)
  | conversation (text : List Char)
  | stream (text : List Char)
  | package (name message : List Char)
  | component (name path : List Char) (index : Nat)
  | app (message path : List Char)
  | warning (message : List Char) (warnings : List (List Char))
  | info (message : List Char)
  | complete (generatedCode explanation : List Char) (files components : Nat)
      (packagesToInstall : List (List Char)) (warnings : List (List Char))
  | error (message : List Char)
deriving DecidableEq, Repr

/-- The mutable locals of the streaming loop (route.ts:1662-1671 and 1565). -/
structure StState where
  generatedCode : List Char
  currentFile : List Char
  currentFilePath : List Char
  componentCount : Nat
  isInFile : Bool
  isInTag : Bool
  conversationalBuffer : List Char
  tagBuffer : List Char
  packagesToInstall : List (List Char)
deriving DecidableEq, Repr

/-- Initial values of the streaming locals. -/
def initState : StState :=
  { generatedCode := [], currentFile := [], currentFilePath := [],
    componentCount := 0, isInFile := false, isInTag := false,
    conversationalBuffer := [], tagBuffer := [], packagesToInstall := [] }

/-- The repeated collection idiom of route.ts:1723-1733, 1798-1808 and
1852-1861: walk candidate names in order and, for each name not already in
`packagesToInstall`, push it and emit one `package` event built with `mkMsg`. -/
def addPackages (mkMsg : List Char → List Char) :
    List (List Char) → List (List Char) → List (List Char) × List PEvent
  | [], packages => (packages, [])
  | name :: cands, packages =>
    if packages.contains name then addPackages mkMsg cands packages
    else
      let r := addPackages mkMsg cands (packages ++ [name])
      (r.1, PEvent.package name (mkMsg name) :: r.2)

/-- route.ts:1674-1776 — the body of `for await (const textPart of
result.textStream)` for one chunk `text`: the updated locals and the events
sent during the iteration, in order. -/
def processChunk (isEdit : Bool) (st : StState) (text : List Char) :
    StState × List PEvent :=
  let generatedCode := st.generatedCode ++ text
  let currentFile0 := st.currentFile ++ text
  let searchText := st.tagBuffer ++ text
  let hasOpen := hasOpenTag text
  let hasClose := hasCloseTag text
  -- 1689-1699: flush buffered conversational text when an open marker appears
  let flushConv := hasOpen && !(jsTrim st.conversationalBuffer).isEmpty && !st.isInTag
  let convEvents := if flushConv then [PEvent.conversation (jsTrim st.conversationalBuffer)] else []
  let convBuf1 := if flushConv then [] else st.conversationalBuffer
  -- 1698, 1701-1703: isInTag updates in statement order
  let isInTag := if hasClose then false else (if hasOpen then true else st.isInTag)
  -- 1705-1708: outside any tag, buffer the chunk as conversational text
  let conversationalBuffer := if !isInTag && !hasOpen then convBuf1 ++ text else convBuf1
  -- 1710-1715: the raw chunk is forwarded as a stream event
  let streamEvents := [PEvent.stream text]
  -- 1717-1736: package-directive scan over tagBuffer + text, edits only
  let scanned := scanPkgsAux searchText 0
  let pkgCands :=
    if isEdit then (scanned.1.map jsTrim).filter (fun n => !n.isEmpty) else []
  let pkgStep := addPackages (fun n => str "Package detected: " ++ n) pkgCands st.packagesToInstall
  let lastIndex := if isEdit then scanned.2 else 0
  -- 1739: keep the searchText from lastIndex - 50 on
  let tagBuffer := searchText.drop (lastIndex - 50)
  -- 1742-1749: file-open detection in this chunk alone
  let pathMatch := if containsSub fileOpenLit text then firstFileTagPath text else none
  let currentFilePath := match pathMatch with | some p => p | none => st.currentFilePath
  let isInFile := match pathMatch with | some _ => true | none => st.isInFile
  let currentFile := match pathMatch with | some _ => text | none => currentFile0
  -- 1752-1775: file-close detection and the component/app completion events
  let fileDone := isInFile && containsSub fileCloseLit currentFile
  let isComp := containsSub (str "components/") currentFilePath
  let isApp := containsSub (str "App.jsx") currentFilePath
  let componentName :=
    let n := replaceFirst (str ".jsx") [] (lastSlashSeg currentFilePath)
    if n.isEmpty then str "Component" else n
  let doneEvents :=
    if fileDone then
      if isComp then [PEvent.component componentName currentFilePath (st.componentCount + 1)]
      else if isApp then [PEvent.app (str "Generated main App.jsx") currentFilePath]
      else []
    else []
  ({ generatedCode := generatedCode,
     currentFile := if fileDone then [] else currentFile,
     currentFilePath := if fileDone then [] else currentFilePath,
     componentCount := if fileDone && isComp then st.componentCount + 1 else st.componentCount,
     isInFile := if fileDone then false else isInFile,
     isInTag := isInTag,
     conversationalBuffer := conversationalBuffer,
     tagBuffer := tagBuffer,
     packagesToInstall := pkgStep.1 },
   convEvents ++ streamEvents ++ pkgStep.2 ++ doneEvents)

/-- The whole streaming loop over an ordered chunk list. -/
def processChunks (isEdit : Bool) : StState → List (List Char) → StState × List PEvent
  | st, [] => (st, [])
  | st, text :: chunks =>
    let step := processChunk isEdit st text
    let rest := processChunks isEdit step.1 chunks
    (rest.1, step.2 ++ rest.2)

/-! ### Post-stream processing (route.ts:1780-2107) -/

/-- route.ts:1780-1786 — flush any remaining conversational text. -/
def finalConvEvents (st : StState) : List PEvent :=
  if !(jsTrim st.conversationalBuffer).isEmpty then
    [PEvent.conversation (jsTrim st.conversationalBuffer)]
  else []

/-- route.ts:1866-1880 — the completion event sent for one extracted file in
the post-stream pass; `componentCount` is the count left over from streaming
and is not incremented here. -/
def postFileEvents (componentCount : Nat) (filePath : List Char) : List PEvent :=
  if containsSub (str "components/") filePath then
    let n := replaceFirst (str ".jsx") [] (lastSlashSeg filePath)
    [PEvent.component (if n.isEmpty then str "Component" else n) filePath componentCount]
  else if containsSub (str "App.jsx") filePath then
    [PEvent.app (str "Generated main App.jsx") filePath]
  else []

/-- Result of the post-stream file pass. -/
structure FilePass where
  files : List (List Char × List Char)
  packagesToInstall : List (List Char)
  events : List PEvent
deriving Repr

/-- route.ts:1840-1881 — walk the matches of the file regex over the whole
output in order: collect `(path, trimmed content)`, collect import packages
(edits only), and send one component/app event per matching record. -/
def filePassAux (isEdit : Bool) (componentCount : Nat) :
    List (List Char × List Char) → List (List Char) → FilePass
  | [], pkgs => { files := [], packagesToInstall := pkgs, events := [] }
  | (filePath, rawContent) :: rest, pkgs =>
    let content := jsTrim rawContent
    let pkgStep :=
      if isEdit then
        addPackages (fun n => str "Package detected from imports: " ++ n)
          (extractPackagesFromCode content) pkgs
      else (pkgs, [])
    let r := filePassAux isEdit componentCount rest pkgStep.1
    { files := (filePath, content) :: r.files,
      packagesToInstall := r.packagesToInstall,
      events := pkgStep.2 ++ postFileEvents componentCount filePath ++ r.events }

/-- route.ts:1883-1885 — explanation extraction with its default. -/
def explanationValue (gc : List Char) : List Char :=
  match explanationOf gc with
  | some e => jsTrim e
  | none => str "Code generated successfully!"

/-- route.ts:1893-1897 interpolated message. -/
def unclosedMsg (o c : Nat) : List Char :=
  str "Unclosed file tags detected: " ++ natToChars o ++ str " open, " ++
    natToChars c ++ str " closed"

/-- route.ts:1900-1928 — the truncation warnings produced for one scanned
record `(filePath, content)`. -/
def recordWarnings (filePath content : List Char) : List (List Char) :=
  (if (['<'].isSuffixOf (jsTrim content) || (str "</").isSuffixOf (jsTrim content)) then
    [str "File " ++ filePath ++ str " appears to have incomplete HTML tags"]
  else []) ++
  (if isJsxPath filePath then
    (let openBraces := content.count '\x7b'
     let closeBraces := content.count '\x7d'
     if natDiff openBraces closeBraces > 3 then
       [str "File " ++ filePath ++ str " has severely unmatched braces (" ++
         natToChars openBraces ++ str " open, " ++ natToChars closeBraces ++ str " closed)"]
     else []) ++
    (if content.length < 20 && containsSub (str "function") content &&
        !containsSub ['\x7d'] content then
       [str "File " ++ filePath ++ str " appears severely truncated"]
     else [])
  else [])

/-- route.ts:1888-1928 — the full `truncationWarnings` list. -/
def truncationWarningsOf (gc : List Char) : List (List Char) :=
  let fileOpenCount := countSub fileOpenLit gc
  let fileCloseCount := countSub fileCloseLit gc
  (if fileOpenCount ≠ fileCloseCount then [unclosedMsg fileOpenCount fileCloseCount] else []) ++
  (truncScanAux gc).foldl (fun ws pc => ws ++ recordWarnings pc.1 pc.2) []

/-- route.ts:1945-1977 — the per-record truncation test of the recovery pass. -/
def isTruncatedRecord (filePath content : List Char) : Bool :=
  let hasEllipsis := containsSub (str "...") content &&
    !containsSub (str "...rest") content && !containsSub (str "...props") content &&
    !containsSub (str "spread") content
  let tc := jsTrim content
  let endsAbruptly := (str "...").isSuffixOf tc || [','].isSuffixOf tc || ['('].isSuffixOf tc
  let hasUnclosedTags := containsSub (str "</") content &&
    !hasProperCloseTag content && containsSub ['<'] content
  let tooShort := content.length < 50 && isJsxPath filePath
  let openBraceCount := content.count '\x7b'
  let closeBraceCount := content.count '\x7d'
  let hasUnmatchedBraces := natDiff openBraceCount closeBraceCount > 1
  (hasEllipsis && endsAbruptly) || hasUnclosedTags ||
    (tooShort && !containsSub (str "export") content) || hasUnmatchedBraces

/-- route.ts:1941-1978 — the paths pushed to `truncatedFiles`. -/
def truncatedFilesOf (gc : List Char) : List (List Char) :=
  (truncScanAux gc).foldl
    (fun acc pc => if isTruncatedRecord pc.1 pc.2 then acc ++ [pc.1] else acc) []

/-- route.ts:2044-2047 — the replacement record spliced in for a repaired file. -/
def repairedRecord (filePath cleanContent : List Char) : List Char :=
  fileOpenLit ++ filePath ++ str "\">" ++ '\n' :: cleanContent ++ '\n' :: fileCloseLit

/-- Result of the repair loop. -/
structure RepairResult where
  code : List Char
  events : List PEvent
  calls : Nat
deriving Repr

/-- route.ts:1984-2058 — the sequential repair loop over the truncated-file
list, starting from output `code`.  The follow-up generation call is the
external provider; it is modelled by the oracle `completion`, where `none`
means the call failed (`completionError`). -/
def repairLoop (completion : List Char → Option (List Char)) :
    List (List Char) → List Char → RepairResult
  | [], code => { code := code, events := [], calls := 0 }
  | filePath :: rest, code =>
    let infoEv := PEvent.info (str "Completing " ++ filePath ++ str "...")
    match completion filePath with
    | some completedContent =>
      let cleanContent := cleanCompleted completedContent
      let r := repairLoop completion rest
        (repairReplaceAux filePath (repairedRecord filePath cleanContent) code)
      { code := r.code, events := infoEv :: r.events, calls := r.calls + 1 }
    | none =>
      let r := repairLoop completion rest code
      { code := r.code,
        events := infoEv :: PEvent.warning (str "Could not auto-complete " ++ filePath ++
          str ". Manual review may be needed.") [] :: r.events,
        calls := r.calls + 1 }

/-- Modelled from the spec: the flag `appConfig.codeApplication.
enableTruncationRecovery` read at route.ts:1931 lives in a configuration
module that is not part of this repository's sources.  The spec's Repair
Coordinator (§4.5) runs one follow-up generation per faulted record, so the
switch is taken as enabled. -/
def enableTruncationRecovery : Bool := true

/-- Everything the post-stream phase produces. -/
structure PostResult where
  code : List Char
  events : List PEvent
  files : List (List Char × List Char)
  packagesToInstall : List (List Char)
  explanation : List Char
  warnings : List (List Char)
  repairList : List (List Char)
  repairCalls : Nat
deriving Repr

/-- route.ts:1789-1810 — the `<packages>` block pass, edits only: the updated
package list and its events. -/
def postPkgStep (isEdit : Bool) (st : StState) : List (List Char) × List PEvent :=
  if isEdit then
    addPackages (fun n => str "Package detected: " ++ n)
      ((packagesBlocksAux st.generatedCode).foldl (fun acc b => acc ++ packagesListOf b) [])
      st.packagesToInstall
  else (st.packagesToInstall, [])

/-- route.ts:1840-1881 — the post-stream file pass over the whole output. -/
def postFilePass (isEdit : Bool) (st : StState) : FilePass :=
  filePassAux isEdit st.componentCount (extractFilesAux st.generatedCode)
    (postPkgStep isEdit st).1

/-- Result of the truncation-recovery phase. -/
structure Recovery where
  code : List Char
  events : List PEvent
  warnings : List (List Char)
  repairList : List (List Char)
  calls : Nat
deriving Repr

/-- route.ts:1930-2067 — the truncation-recovery phase over the full output
`gc`: the (possibly repaired) output, the events sent, the warnings that
remain for the `complete` event (cleared at route.ts:2061 when any repair was
attempted), the list of files a repair was attempted for, and the number of
follow-up generation calls. -/
def postRecovery (completion : List Char → Option (List Char)) (gc : List Char) :
    Recovery :=
  let warnings := truncationWarningsOf gc
  if !warnings.isEmpty && enableTruncationRecovery then
    let headWarn := [PEvent.warning
      (str "Detected incomplete code generation. Attempting to complete...") warnings]
    let truncatedFiles := truncatedFilesOf gc
    if !truncatedFiles.isEmpty then
      let r := repairLoop completion truncatedFiles gc
      { code := r.code,
        events := headWarn ++ r.events ++ [PEvent.info (str "Truncation recovery complete")],
        warnings := [], repairList := truncatedFiles, calls := r.calls }
    else { code := gc, events := headWarn, warnings := warnings, repairList := [], calls := 0 }
  else { code := gc, events := [], warnings := warnings, repairList := [], calls := 0 }

/-- route.ts:2069-2079 — the `complete` event. -/
def postCompleteEvent (isEdit : Bool) (completion : List Char → Option (List Char))
    (st : StState) : PEvent :=
  PEvent.complete (postRecovery completion st.generatedCode).code
    (explanationValue st.generatedCode)
    (postFilePass isEdit st).files.length st.componentCount
    (postFilePass isEdit st).packagesToInstall
    (postRecovery completion st.generatedCode).warnings

/-- route.ts:1780-2079 — the whole post-stream phase, from the final
conversational flush to the `complete` event. -/
def runPost (isEdit : Bool) (completion : List Char → Option (List Char))
    (st : StState) : PostResult :=
  let fp := postFilePass isEdit st
  let recovery := postRecovery completion st.generatedCode
  { code := recovery.code,
    events := finalConvEvents st ++ (postPkgStep isEdit st).2 ++ fp.events ++
      recovery.events ++ [postCompleteEvent isEdit completion st],
    files := fp.files,
    packagesToInstall := fp.packagesToInstall,
    explanation := explanationValue st.generatedCode,
    warnings := recovery.warnings,
    repairList := recovery.repairList,
    repairCalls := recovery.calls }

/-! ### Session assembly (route.ts:152-2128) -/

/-- Events that the out-of-scope edit-analysis phase (route.ts:163-480) may
send: it only ever emits `status` and `warning` objects. -/
inductive PreEvent where
  | status (message : List Char)
  | warning (message : List Char)

def PreEvent.toPEvent : PreEvent → PEvent
  | .status m => .status m
  | .warning m => .warning m []

/-- The post-stream phase of a session, as a function of the chunk stream. -/
def sessionPost (isEdit : Bool) (chunks : List (List Char))
    (completion : List Char → Option (List Char)) : PostResult :=
  runPost isEdit completion (processChunks isEdit initState chunks).1

/-- route.ts:152-2107 — every event of the `try` block of a session that runs
to the end without an exception: the two fixed status events (155 and 1560),
the edit-analysis events (edit sessions only), the streaming events, and the
post-stream events ending in `complete`. -/
def tryEvents (isEdit : Bool) (editPhase : List PreEvent) (chunks : List (List Char))
    (completion : List Char → Option (List Char)) : List PEvent :=
  PEvent.status (str "Initializing AI...") ::
    ((if isEdit then editPhase.map PreEvent.toPEvent else []) ++
      (PEvent.status (str "Planning application structure...") ::
        ((processChunks isEdit initState chunks).2 ++
          (sessionPost isEdit chunks completion).events)))

/-- route.ts:2109-2125 — the events the `catch` block sends for a stream
error with message `msg`. -/
def catchEvents (msg : List Char) : List PEvent :=
  if containsSub (str "tool call validation failed") msg then
    [PEvent.warning (str "Package installation tool encountered an issue. Packages will be detected from imports instead.") []]
  else [PEvent.error msg]

/-- A session whose `try` block raises an exception with message `msg` after
`k` events have been sent: the prefix already sent, then the catch handler's
events. -/
def failedSessionEvents (isEdit : Bool) (editPhase : List PreEvent)
    (chunks : List (List Char)) (completion : List Char → Option (List Char))
    (k : Nat) (msg : List Char) : List PEvent :=
  (tryEvents isEdit editPhase chunks completion).take k ++ catchEvents msg

/-! ### Event observations -/

def PEvent.isTerminal : PEvent → Bool
  | .complete .. => true
  | .error _ => true
  | _ => false

def PEvent.isComplete : PEvent → Bool
  | .complete .. => true
  | _ => false

def PEvent.isCompOrApp : PEvent → Bool
  | .component .. => true
  | .app .. => true
  | _ => false

def PEvent.isPackage : PEvent → Bool
  | .package .. => true
  | _ => false

def PEvent.isConversation : PEvent → Bool
  | .conversation _ => true
  | _ => false

def countEvents (p : PEvent → Bool) (evs : List PEvent) : Nat := (evs.filter p).length

/-- Names carried by the `package` events of a list, in order. -/
def packageNames : List PEvent → List (List Char)
  | [] => []
  | .package n _ :: evs => n :: packageNames evs
  | _ :: evs => packageNames evs

/-! ### Structural lemmas -/

theorem packageNames_append (a b : List PEvent) :
    packageNames (a ++ b) = packageNames a ++ packageNames b := by
  induction a with
  | nil => simp [packageNames]
  | cons e es ih => cases e <;> simp [packageNames, ih]

theorem countEvents_append (p : PEvent → Bool) (a b : List PEvent) :
    countEvents p (a ++ b) = countEvents p a + countEvents p b := by
  simp [countEvents]

theorem filter_take_nil {p : PEvent → Bool} {l : List PEvent}
    (h : l.filter p = []) (k : Nat) : (l.take k).filter p = [] := by
  induction l generalizing k with
  | nil => simp
  | cons e es ih =>
    by_cases hp : p e = true
    · simp [List.filter_cons, hp] at h
    · cases k with
      | zero => simp
      | succ j =>
        simp only [List.filter_cons, hp] at h
        simp only [List.take_succ_cons, List.filter_cons, hp]
        simp only [Bool.false_eq_true, if_false]
        exact ih h j

/-! ### Properties of the package-collection idiom -/

/-- The names pushed by one collection walk are exactly the names of the
events it emits: the final list is the old list followed by the event names. -/
theorem addPackages_fst (mkMsg : List Char → List Char) (cands : List (List Char)) :
    ∀ pkgs, (addPackages mkMsg cands pkgs).1 =
      pkgs ++ packageNames (addPackages mkMsg cands pkgs).2 := by
  induction cands with
  | nil => intro pkgs; simp [addPackages, packageNames]
  | cons n cs ih =>
    intro pkgs
    simp only [addPackages]
    by_cases hc : n ∈ pkgs
    · rw [if_pos (List.elem_iff.mpr hc)]
      exact ih pkgs
    · rw [if_neg (fun h => hc (List.elem_iff.mp h))]
      simp only [packageNames]
      rw [ih (pkgs ++ [n])]
      simp

theorem addPackages_nodup (mkMsg : List Char → List Char) (cands : List (List Char)) :
    ∀ pkgs, pkgs.Nodup → (addPackages mkMsg cands pkgs).1.Nodup := by
  induction cands with
  | nil => intro pkgs h; simpa [addPackages] using h
  | cons n cs ih =>
    intro pkgs h
    simp only [addPackages]
    by_cases hc : n ∈ pkgs
    · rw [if_pos (List.elem_iff.mpr hc)]
      exact ih pkgs h
    · rw [if_neg (fun hx => hc (List.elem_iff.mp hx))]
      apply ih
      simp [List.nodup_append, h, hc]

theorem addPackages_mem_mono (mkMsg : List Char → List Char) (cands : List (List Char)) :
    ∀ pkgs n, n ∈ pkgs → n ∈ (addPackages mkMsg cands pkgs).1 := by
  intro pkgs n h
  rw [addPackages_fst]
  exact List.mem_append_left _ h

theorem addPackages_mem_cands (mkMsg : List Char → List Char) (cands : List (List Char)) :
    ∀ pkgs n, n ∈ cands → n ∈ (addPackages mkMsg cands pkgs).1 := by
  induction cands with
  | nil => intro pkgs n h; exact absurd h (by simp)
  | cons m cs ih =>
    intro pkgs n h
    simp only [addPackages]
    by_cases hc : m ∈ pkgs
    · rw [if_pos (List.elem_iff.mpr hc)]
      rcases List.mem_cons.mp h with rfl | h2
      · exact addPackages_mem_mono mkMsg cs pkgs n hc
      · exact ih pkgs n h2
    · rw [if_neg (fun hx => hc (List.elem_iff.mp hx))]
      rcases List.mem_cons.mp h with rfl | h2
      · exact addPackages_mem_mono mkMsg cs _ n (by simp)
      · exact ih _ n h2

/-- Collection walks emit only `package` events. -/
theorem addPackages_events_filter (p : PEvent → Bool)
    (hp : ∀ n m, p (.package n m) = false) (mkMsg : List Char → List Char)
    (cands : List (List Char)) :
    ∀ pkgs, ((addPackages mkMsg cands pkgs).2.filter p) = [] := by
  induction cands with
  | nil => intro pkgs; simp [addPackages]
  | cons n cs ih =>
    intro pkgs
    simp only [addPackages]
    by_cases hc : n ∈ pkgs
    · rw [if_pos (List.elem_iff.mpr hc)]
      exact ih pkgs
    · rw [if_neg (fun hx => hc (List.elem_iff.mp hx))]
      simp [List.filter_cons, hp, ih]

/-! ### Invariants of the streaming loop -/

theorem processChunk_generatedCode (isEdit : Bool) (st : StState) (text : List Char) :
    (processChunk isEdit st text).1.generatedCode = st.generatedCode ++ text := rfl

theorem processChunks_generatedCode (isEdit : Bool) (chunks : List (List Char)) :
    ∀ st, (processChunks isEdit st chunks).1.generatedCode =
      st.generatedCode ++ chunks.flatten := by
  induction chunks with
  | nil => intro st; simp [processChunks]
  | cons c cs ih =>
    intro st
    simp only [processChunks]
    rw [ih, processChunk_generatedCode]
    simp

theorem processChunk_tagBuffer_nonEdit (st : StState) (text : List Char) :
    (processChunk false st text).1.tagBuffer = st.tagBuffer ++ text := rfl

theorem processChunks_tagBuffer_nonEdit (chunks : List (List Char)) :
    ∀ st, (processChunks false st chunks).1.tagBuffer = st.tagBuffer ++ chunks.flatten := by
  induction chunks with
  | nil => intro st; simp [processChunks]
  | cons c cs ih =>
    intro st
    simp only [processChunks]
    rw [ih, processChunk_tagBuffer_nonEdit]
    simp

theorem processChunk_packages (isEdit : Bool) (st : StState) (text : List Char) :
    (processChunk isEdit st text).1.packagesToInstall =
      st.packagesToInstall ++ packageNames (processChunk isEdit st text).2 := by
  unfold processChunk
  simp only []
  split_ifs <;> simp [packageNames, packageNames_append, addPackages_fst]

theorem processChunks_packages (isEdit : Bool) (chunks : List (List Char)) :
    ∀ st, (processChunks isEdit st chunks).1.packagesToInstall =
      st.packagesToInstall ++ packageNames (processChunks isEdit st chunks).2 := by
  induction chunks with
  | nil => intro st; simp [processChunks, packageNames]
  | cons c cs ih =>
    intro st
    simp only [processChunks]
    rw [ih, processChunk_packages, packageNames_append]
    simp

theorem processChunk_nodup (isEdit : Bool) (st : StState) (text : List Char)
    (h : st.packagesToInstall.Nodup) :
    (processChunk isEdit st text).1.packagesToInstall.Nodup :=
  addPackages_nodup _ _ _ h

theorem processChunks_nodup (isEdit : Bool) (chunks : List (List Char)) :
    ∀ st, st.packagesToInstall.Nodup →
      (processChunks isEdit st chunks).1.packagesToInstall.Nodup := by
  induction chunks with
  | nil => intro st h; simpa [processChunks] using h
  | cons c cs ih =>
    intro st h
    simp only [processChunks]
    exact ih _ (processChunk_nodup isEdit st c h)

/-- One chunk iteration sends only conversation, stream, package, component
and app events. -/
theorem processChunk_events_filter_nil (p : PEvent → Bool)
    (h1 : ∀ t, p (.conversation t) = false) (h2 : ∀ t, p (.stream t) = false)
    (h3 : ∀ n m, p (.package n m) = false) (h4 : ∀ n q i, p (.component n q i) = false)
    (h5 : ∀ m q, p (.app m q) = false)
    (isEdit : Bool) (st : StState) (text : List Char) :
    ((processChunk isEdit st text).2.filter p) = [] := by
  unfold processChunk
  simp only []
  split_ifs <;>
    simp [List.filter_append, List.filter_cons, h1, h2, h4, h5,
      addPackages_events_filter p h3]

theorem processChunks_events_filter_nil (p : PEvent → Bool)
    (h1 : ∀ t, p (.conversation t) = false) (h2 : ∀ t, p (.stream t) = false)
    (h3 : ∀ n m, p (.package n m) = false) (h4 : ∀ n q i, p (.component n q i) = false)
    (h5 : ∀ m q, p (.app m q) = false)
    (isEdit : Bool) (chunks : List (List Char)) :
    ∀ st, ((processChunks isEdit st chunks).2.filter p) = [] := by
  induction chunks with
  | nil => intro st; simp [processChunks]
  | cons c cs ih =>
    intro st
    simp only [processChunks]
    rw [List.filter_append, processChunk_events_filter_nil p h1 h2 h3 h4 h5, ih]
    simp

/-- route.ts:1717-1736 — a fresh-generation chunk iteration emits no package
events and leaves the collected package list unchanged. -/
theorem processChunk_events_noPackage_nonEdit (st : StState) (text : List Char) :
    ((processChunk false st text).2.filter PEvent.isPackage) = [] := by
  unfold processChunk
  simp only []
  split_ifs <;>
    simp_all [PEvent.isPackage, addPackages, List.filter_append, List.filter_cons]

theorem processChunks_events_noPackage_nonEdit (chunks : List (List Char)) :
    ∀ st, ((processChunks false st chunks).2.filter PEvent.isPackage) = [] := by
  induction chunks with
  | nil => intro st; simp [processChunks]
  | cons c cs ih =>
    intro st
    simp only [processChunks]
    rw [List.filter_append, processChunk_events_noPackage_nonEdit, ih]
    simp

/-! ### Invariants of the post-stream file pass -/

/-- Paths for which the file pass sends a completion event. -/
def isRecordEventPath (p : List Char) : Bool :=
  containsSub (str "components/") p || containsSub (str "App.jsx") p

/-- The number of extracted records that trigger a component/app event. -/
def recordEventCount (files : List (List Char × List Char)) : Nat :=
  (files.filter (fun pc => isRecordEventPath pc.1)).length

theorem postFileEvents_compApp_count (cc : Nat) (path : List Char) :
    countEvents PEvent.isCompOrApp (postFileEvents cc path) =
      (if isRecordEventPath path then 1 else 0) := by
  unfold postFileEvents isRecordEventPath
  split_ifs with hA hB <;> simp_all [countEvents, PEvent.isCompOrApp]

theorem postFileEvents_filter_nil (p : PEvent → Bool)
    (h4 : ∀ n q i, p (.component n q i) = false) (h5 : ∀ m q, p (.app m q) = false)
    (cc : Nat) (path : List Char) : (postFileEvents cc path).filter p = [] := by
  unfold postFileEvents
  split_ifs <;> simp [List.filter_cons, h4, h5]

theorem postFileEvents_packageNames (cc : Nat) (path : List Char) :
    packageNames (postFileEvents cc path) = [] := by
  unfold postFileEvents
  split_ifs <;> simp [packageNames]

theorem filePassAux_files (isEdit : Bool) (cc : Nat) (l : List (List Char × List Char)) :
    ∀ pkgs, (filePassAux isEdit cc l pkgs).files =
      l.map (fun pc => (pc.1, jsTrim pc.2)) := by
  induction l with
  | nil => intro pkgs; simp [filePassAux]
  | cons pc rest ih =>
    obtain ⟨fp, rc⟩ := pc
    intro pkgs
    simp only [filePassAux]
    rw [ih]
    simp

theorem filePassAux_packages (isEdit : Bool) (cc : Nat)
    (l : List (List Char × List Char)) :
    ∀ pkgs, (filePassAux isEdit cc l pkgs).packagesToInstall =
      pkgs ++ packageNames (filePassAux isEdit cc l pkgs).events := by
  cases isEdit with
  | false =>
    induction l with
    | nil => intro pkgs; simp [filePassAux, packageNames]
    | cons pc rest ih =>
      obtain ⟨fp, rc⟩ := pc
      intro pkgs
      simp only [filePassAux, Bool.false_eq_true, if_false]
      rw [ih, packageNames_append, packageNames_append, postFileEvents_packageNames]
      simp [packageNames]
  | true =>
    induction l with
    | nil => intro pkgs; simp [filePassAux, packageNames]
    | cons pc rest ih =>
      obtain ⟨fp, rc⟩ := pc
      intro pkgs
      simp only [filePassAux, if_true]
      rw [ih, packageNames_append, packageNames_append, postFileEvents_packageNames]
      rw [addPackages_fst]
      simp

theorem filePassAux_nodup (isEdit : Bool) (cc : Nat) (l : List (List Char × List Char)) :
    ∀ pkgs, pkgs.Nodup → (filePassAux isEdit cc l pkgs).packagesToInstall.Nodup := by
  cases isEdit with
  | false =>
    induction l with
    | nil => intro pkgs h; simpa [filePassAux] using h
    | cons pc rest ih =>
      obtain ⟨fp, rc⟩ := pc
      intro pkgs h
      simp only [filePassAux, Bool.false_eq_true, if_false]
      exact ih pkgs h
  | true =>
    induction l with
    | nil => intro pkgs h; simpa [filePassAux] using h
    | cons pc rest ih =>
      obtain ⟨fp, rc⟩ := pc
      intro pkgs h
      simp only [filePassAux, if_true]
      exact ih _ (addPackages_nodup _ _ _ h)

theorem filePassAux_mem_mono (isEdit : Bool) (cc : Nat) (l : List (List Char × List Char)) :
    ∀ pkgs n, n ∈ pkgs → n ∈ (filePassAux isEdit cc l pkgs).packagesToInstall := by
  cases isEdit with
  | false =>
    induction l with
    | nil => intro pkgs n h; simpa [filePassAux] using h
    | cons pc rest ih =>
      obtain ⟨fp, rc⟩ := pc
      intro pkgs n h
      simp only [filePassAux, Bool.false_eq_true, if_false]
      exact ih pkgs n h
  | true =>
    induction l with
    | nil => intro pkgs n h; simpa [filePassAux] using h
    | cons pc rest ih =>
      obtain ⟨fp, rc⟩ := pc
      intro pkgs n h
      simp only [filePassAux, if_true]
      exact ih _ n (addPackages_mem_mono _ _ _ _ h)

/-- In edit mode every package referenced from an extracted record's imports
ends up in the collected list. -/
theorem filePassAux_mem_imports (cc : Nat) (l : List (List Char × List Char)) :
    ∀ pkgs pc, pc ∈ l → ∀ n, n ∈ extractPackagesFromCode (jsTrim pc.2) →
      n ∈ (filePassAux true cc l pkgs).packagesToInstall := by
  induction l with
  | nil => intro pkgs pc h; exact absurd h (by simp)
  | cons hd rest ih =>
    obtain ⟨fp, rc⟩ := hd
    intro pkgs pc hmem n hn
    rcases List.mem_cons.mp hmem with rfl | h2
    · simp only [filePassAux, if_true]
      apply filePassAux_mem_mono
      exact addPackages_mem_cands _ _ _ _ hn
    · simp only [filePassAux, if_true]
      exact ih _ pc h2 n hn

theorem filePassAux_events_filter (p : PEvent → Bool)
    (h3 : ∀ n m, p (.package n m) = false) (h4 : ∀ n q i, p (.component n q i) = false)
    (h5 : ∀ m q, p (.app m q) = false) (isEdit : Bool) (cc : Nat)
    (l : List (List Char × List Char)) :
    ∀ pkgs, ((filePassAux isEdit cc l pkgs).events.filter p) = [] := by
  cases isEdit with
  | false =>
    induction l with
    | nil => intro pkgs; simp [filePassAux]
    | cons pc rest ih =>
      obtain ⟨fp, rc⟩ := pc
      intro pkgs
      simp only [filePassAux, Bool.false_eq_true, if_false, List.filter_append]
      rw [postFileEvents_filter_nil p h4 h5, ih]
      simp
  | true =>
    induction l with
    | nil => intro pkgs; simp [filePassAux]
    | cons pc rest ih =>
      obtain ⟨fp, rc⟩ := pc
      intro pkgs
      simp only [filePassAux, if_true, List.filter_append]
      rw [postFileEvents_filter_nil p h4 h5, ih, addPackages_events_filter p h3]
      simp

/-- The post-stream file pass sends exactly one component/app event per
matching record. -/
theorem filePassAux_compApp_count (isEdit : Bool) (cc : Nat)
    (l : List (List Char × List Char)) :
    ∀ pkgs, countEvents PEvent.isCompOrApp (filePassAux isEdit cc l pkgs).events =
      recordEventCount l := by
  cases isEdit with
  | false =>
    induction l with
    | nil => intro pkgs; simp [filePassAux, recordEventCount, countEvents]
    | cons pc rest ih =>
      obtain ⟨fp, rc⟩ := pc
      intro pkgs
      simp only [filePassAux, Bool.false_eq_true, if_false]
      simp only [countEvents, List.filter_append, List.length_append] at ih ⊢
      rw [ih]
      have hc := postFileEvents_compApp_count cc fp
      simp only [countEvents] at hc
      rw [hc]
      simp only [recordEventCount, List.filter_cons]
      by_cases hp : isRecordEventPath fp = true
      · simp [hp]
        omega
      · rw [Bool.not_eq_true] at hp
        simp [hp]
  | true =>
    induction l with
    | nil => intro pkgs; simp [filePassAux, recordEventCount, countEvents]
    | cons pc rest ih =>
      obtain ⟨fp, rc⟩ := pc
      intro pkgs
      simp only [filePassAux, if_true]
      simp only [countEvents, List.filter_append, List.length_append] at ih ⊢
      rw [ih]
      rw [addPackages_events_filter PEvent.isCompOrApp (by intro n m; rfl)]
      have hc := postFileEvents_compApp_count cc fp
      simp only [countEvents] at hc
      rw [hc]
      simp only [recordEventCount, List.filter_cons]
      by_cases hp : isRecordEventPath fp = true
      · simp [hp]
        omega
      · rw [Bool.not_eq_true] at hp
        simp [hp]

/-- For fresh-generation sessions the file pass emits no package events and
leaves the package list unchanged. -/
theorem filePassAux_noPackage_nonEdit (cc : Nat) (l : List (List Char × List Char)) :
    ∀ pkgs, ((filePassAux false cc l pkgs).events.filter PEvent.isPackage) = [] := by
  induction l with
  | nil => intro pkgs; simp [filePassAux]
  | cons pc rest ih =>
    obtain ⟨fp, rc⟩ := pc
    intro pkgs
    simp only [filePassAux]
    simp only [Bool.false_eq_true, if_false, List.filter_append]
    rw [ih]
    rw [postFileEvents_filter_nil PEvent.isPackage (by intro n q i; rfl) (by intro m q; rfl)]
    simp

/-! ### Invariants of the repair loop and recovery phase -/

theorem repairLoop_code_fail (files : List (List Char)) :
    ∀ code, (repairLoop (fun _ => none) files code).code = code := by
  induction files with
  | nil => intro code; simp [repairLoop]
  | cons f rest ih =>
    intro code
    simp only [repairLoop]
    exact ih code

theorem repairLoop_fail_warning (files : List (List Char)) :
    ∀ code f, f ∈ files →
      PEvent.warning (str "Could not auto-complete " ++ f ++
        str ". Manual review may be needed.") [] ∈
        (repairLoop (fun _ => none) files code).events := by
  induction files with
  | nil => intro code f h; exact absurd h (by simp)
  | cons g rest ih =>
    intro code f h
    simp only [repairLoop]
    rcases List.mem_cons.mp h with rfl | h2
    · simp
    · simp only [List.mem_cons]
      right; right
      exact ih code f h2

theorem repairLoop_events_filter (p : PEvent → Bool)
    (hpi : ∀ m, p (.info m) = false) (hpw : ∀ m w, p (.warning m w) = false)
    (completion : List Char → Option (List Char)) (files : List (List Char)) :
    ∀ code, ((repairLoop completion files code).events.filter p) = [] := by
  induction files with
  | nil => intro code; simp [repairLoop]
  | cons f rest ih =>
    intro code
    simp only [repairLoop]
    cases hcf : completion f with
    | some cc => simp [List.filter_cons, hpi, ih]
    | none => simp [List.filter_cons, hpi, hpw, ih]

theorem repairLoop_packageNames (completion : List Char → Option (List Char))
    (files : List (List Char)) :
    ∀ code, packageNames (repairLoop completion files code).events = [] := by
  induction files with
  | nil => intro code; simp [repairLoop, packageNames]
  | cons f rest ih =>
    intro code
    simp only [repairLoop]
    cases hcf : completion f with
    | some cc => simp [packageNames, ih]
    | none => simp [packageNames, ih]

theorem finalConvEvents_filter (p : PEvent → Bool)
    (h1 : ∀ t, p (.conversation t) = false) (st : StState) :
    (finalConvEvents st).filter p = [] := by
  unfold finalConvEvents
  split_ifs <;> simp [List.filter_cons, h1]

theorem finalConvEvents_packageNames (st : StState) :
    packageNames (finalConvEvents st) = [] := by
  unfold finalConvEvents
  split_ifs <;> simp [packageNames]

theorem postPkgStep_nonEdit (st : StState) :
    postPkgStep false st = (st.packagesToInstall, []) := rfl

theorem postPkgStep_fst (isEdit : Bool) (st : StState) :
    (postPkgStep isEdit st).1 =
      st.packagesToInstall ++ packageNames (postPkgStep isEdit st).2 := by
  cases isEdit with
  | false => simp [postPkgStep, packageNames]
  | true =>
    simp only [postPkgStep, if_true]
    exact addPackages_fst _ _ _

theorem postPkgStep_nodup (isEdit : Bool) (st : StState)
    (h : st.packagesToInstall.Nodup) : (postPkgStep isEdit st).1.Nodup := by
  cases isEdit with
  | false => simpa [postPkgStep] using h
  | true =>
    simp only [postPkgStep, if_true]
    exact addPackages_nodup _ _ _ h

theorem postPkgStep_mem_blocks (st : StState) {n : List Char}
    (h : n ∈ (packagesBlocksAux st.generatedCode).foldl
      (fun acc b => acc ++ packagesListOf b) []) :
    n ∈ (postPkgStep true st).1 := by
  simp only [postPkgStep, if_true]
  exact addPackages_mem_cands _ _ _ _ h

theorem postPkgStep_events_filter (p : PEvent → Bool)
    (hp : ∀ n m, p (.package n m) = false) (isEdit : Bool) (st : StState) :
    ((postPkgStep isEdit st).2.filter p) = [] := by
  cases isEdit with
  | false => simp [postPkgStep]
  | true =>
    simp only [postPkgStep, if_true]
    exact addPackages_events_filter p hp _ _ _

theorem postRecovery_events_filter (p : PEvent → Bool)
    (hpi : ∀ m, p (.info m) = false) (hpw : ∀ m w, p (.warning m w) = false)
    (completion : List Char → Option (List Char)) (gc : List Char) :
    ((postRecovery completion gc).events.filter p) = [] := by
  unfold postRecovery
  simp only []
  split_ifs <;>
    simp [List.filter_append, List.filter_cons, hpi, hpw,
      repairLoop_events_filter p hpi hpw]

theorem postRecovery_packageNames (completion : List Char → Option (List Char))
    (gc : List Char) : packageNames (postRecovery completion gc).events = [] := by
  unfold postRecovery
  simp only []
  split_ifs <;>
    simp [packageNames_append, packageNames, repairLoop_packageNames]

theorem postRecovery_code_fail (gc : List Char) :
    (postRecovery (fun _ => none) gc).code = gc := by
  unfold postRecovery
  simp only []
  split_ifs <;> simp [repairLoop_code_fail]

theorem postRecovery_fail_warning (gc : List Char) :
    ∀ f ∈ (postRecovery (fun _ => none) gc).repairList,
      PEvent.warning (str "Could not auto-complete " ++ f ++
        str ". Manual review may be needed.") [] ∈
        (postRecovery (fun _ => none) gc).events := by
  unfold postRecovery
  simp only []
  split_ifs with h1 h2
  · intro f hf
    simp only [List.mem_append, List.mem_cons]
    left; right
    exact repairLoop_fail_warning _ _ f hf
  · intro f hf
    exact absurd hf (by simp)
  · intro f hf
    exact absurd hf (by simp)

/-! ### Session-level structure -/

theorem preEvents_filter (p : PEvent → Bool)
    (hs : ∀ m, p (.status m) = false) (hw : ∀ m w, p (.warning m w) = false)
    (l : List PreEvent) : ((l.map PreEvent.toPEvent).filter p) = [] := by
  induction l with
  | nil => simp
  | cons e es ih =>
    cases e <;> simp [PreEvent.toPEvent, List.filter_cons, hs, hw, ih]

theorem preEvents_packageNames (l : List PreEvent) :
    packageNames (l.map PreEvent.toPEvent) = [] := by
  induction l with
  | nil => simp [packageNames]
  | cons e es ih =>
    cases e <;> simp [PreEvent.toPEvent, packageNames, ih]

theorem runPost_events_eq (isEdit : Bool)
    (completion : List Char → Option (List Char)) (st : StState) :
    (runPost isEdit completion st).events =
      (finalConvEvents st ++ ((postPkgStep isEdit st).2 ++
        ((postFilePass isEdit st).events ++
          (postRecovery completion st.generatedCode).events))) ++
        [postCompleteEvent isEdit completion st] := by
  simp [runPost, List.append_assoc]

/-- All events of the `try` block before the final `complete` event. -/
def tryInitEvents (isEdit : Bool) (editPhase : List PreEvent) (chunks : List (List Char))
    (completion : List Char → Option (List Char)) : List PEvent :=
  PEvent.status (str "Initializing AI...") ::
    ((if isEdit then editPhase.map PreEvent.toPEvent else []) ++
      (PEvent.status (str "Planning application structure...") ::
        ((processChunks isEdit initState chunks).2 ++
          (finalConvEvents (processChunks isEdit initState chunks).1 ++
            ((postPkgStep isEdit (processChunks isEdit initState chunks).1).2 ++
              ((postFilePass isEdit (processChunks isEdit initState chunks).1).events ++
                (postRecovery completion
                  (processChunks isEdit initState chunks).1.generatedCode).events))))))

/-- The `try` block's event list is a prefix followed by the single
`complete` event. -/
theorem tryEvents_decomp (isEdit : Bool) (editPhase : List PreEvent)
    (chunks : List (List Char)) (completion : List Char → Option (List Char)) :
    tryEvents isEdit editPhase chunks completion =
      tryInitEvents isEdit editPhase chunks completion ++
        [postCompleteEvent isEdit completion (processChunks isEdit initState chunks).1] := by
  simp [tryEvents, tryInitEvents, sessionPost, runPost_events_eq, List.append_assoc]

/-- Every event before the final `complete` fails the given test, for any
test that the possible constructors fail. -/
theorem tryInit_filter (p : PEvent → Bool)
    (hst : ∀ m, p (.status m) = false) (h1 : ∀ t, p (.conversation t) = false)
    (h2 : ∀ t, p (.stream t) = false) (h3 : ∀ n m, p (.package n m) = false)
    (h4 : ∀ n q i, p (.component n q i) = false) (h5 : ∀ m q, p (.app m q) = false)
    (hpi : ∀ m, p (.info m) = false) (hpw : ∀ m w, p (.warning m w) = false)
    (isEdit : Bool) (editPhase : List PreEvent) (chunks : List (List Char))
    (completion : List Char → Option (List Char)) :
    ((tryInitEvents isEdit editPhase chunks completion).filter p) = [] := by
  unfold tryInitEvents
  simp only [List.filter_cons, List.filter_append, hst]
  rw [processChunks_events_filter_nil p h1 h2 h3 h4 h5]
  rw [finalConvEvents_filter p h1]
  rw [postPkgStep_events_filter p h3]
  unfold postFilePass
  rw [filePassAux_events_filter p h3 h4 h5]
  rw [postRecovery_events_filter p hpi hpw]
  by_cases he : isEdit = true
  · subst he
    simp only [if_true]
    rw [preEvents_filter p hst hpw]
    simp
  · rw [Bool.not_eq_true] at he
    subst he
    simp

/-- route.ts:2069-2079 under normal termination: the session's events contain
exactly one terminal event. -/
theorem tryEvents_terminal_count (isEdit : Bool) (editPhase : List PreEvent)
    (chunks : List (List Char)) (completion : List Char → Option (List Char)) :
    countEvents PEvent.isTerminal (tryEvents isEdit editPhase chunks completion) = 1 := by
  rw [tryEvents_decomp]
  simp only [countEvents, List.filter_append]
  rw [tryInit_filter PEvent.isTerminal (fun m => rfl) (fun t => rfl) (fun t => rfl)
    (fun n m => rfl) (fun n q i => rfl) (fun m q => rfl) (fun m => rfl) (fun m w => rfl)]
  simp [postCompleteEvent, PEvent.isTerminal]

theorem tryEvents_complete_count (isEdit : Bool) (editPhase : List PreEvent)
    (chunks : List (List Char)) (completion : List Char → Option (List Char)) :
    countEvents PEvent.isComplete (tryEvents isEdit editPhase chunks completion) = 1 := by
  rw [tryEvents_decomp]
  simp only [countEvents, List.filter_append]
  rw [tryInit_filter PEvent.isComplete (fun m => rfl) (fun t => rfl) (fun t => rfl)
    (fun n m => rfl) (fun n q i => rfl) (fun m q => rfl) (fun m => rfl) (fun m w => rfl)]
  simp [postCompleteEvent, PEvent.isComplete]

/-- A proper prefix of the `try` block's events contains no terminal event. -/
theorem tryEvents_take_terminal (isEdit : Bool) (editPhase : List PreEvent)
    (chunks : List (List Char)) (completion : List Char → Option (List Char))
    (k : Nat) (hk : k < (tryEvents isEdit editPhase chunks completion).length) :
    countEvents PEvent.isTerminal
      ((tryEvents isEdit editPhase chunks completion).take k) = 0 := by
  rw [tryEvents_decomp] at hk ⊢
  have hlen : k ≤ (tryInitEvents isEdit editPhase chunks completion).length := by
    simp only [List.length_append, List.length_cons, List.length_nil] at hk
    omega
  rw [List.take_append_of_le_length hlen]
  simp only [countEvents]
  rw [filter_take_nil (tryInit_filter PEvent.isTerminal (fun m => rfl) (fun t => rfl)
    (fun t => rfl) (fun n m => rfl) (fun n q i => rfl) (fun m q => rfl) (fun m => rfl)
    (fun m w => rfl) isEdit editPhase chunks completion)]
  rfl

theorem tryEvents_getLast (isEdit : Bool) (editPhase : List PreEvent)
    (chunks : List (List Char)) (completion : List Char → Option (List Char)) :
    (tryEvents isEdit editPhase chunks completion).getLast? =
      some (postCompleteEvent isEdit completion (processChunks isEdit initState chunks).1) := by
  rw [tryEvents_decomp]
  exact List.getLast?_concat _

/-! ### Frame property of the repair splice -/

/-- If the faulted record's opening marker does not occur in a string, the
repair splice leaves it untouched. -/
theorem repairReplace_noMatch (p repl : List Char) :
    ∀ {s : List Char}, containsSub (repairPat p) s = false →
      repairReplaceAux p repl s = s := by
  intro s
  induction s with
  | nil => intro _; rfl
  | cons c rest ih =>
    intro h
    have h1 : repairMatchAt p (c :: rest) = none := by
      unfold repairMatchAt
      rw [containsSub_false_not_prefixOf h]
      simp
    rw [repairReplaceAux_cons, h1]
    dsimp only
    rw [ih (containsSub_false_tail h)]

/-- The repair splice (route.ts:2044-2047) rewrites exactly the faulted
record's span: when the faulted opening marker first occurs at the span, the
span's payload contains no close marker before its own, and the marker does
not recur after the span, the text before and after the span is byte-for-byte
unchanged. -/
theorem repairReplace_frame (p repl : List Char) :
    ∀ {gc pre content post : List Char},
    splitFirst (repairPat p) gc = some (pre, content ++ fileCloseLit ++ post) →
    splitFirst fileCloseLit (content ++ fileCloseLit ++ post) = some (content, post) →
    containsSub (repairPat p) post = false →
    repairReplaceAux p repl gc = pre ++ repl ++ post := by
  intro gc
  induction gc with
  | nil =>
    intro pre content post h1 _ _
    have hne : (repairPat p).isEmpty = false := by
      cases p <;> simp [repairPat, fileOpenLit, str, List.isEmpty]
    simp [splitFirst, hne] at h1
  | cons c rest ih =>
    intro pre content post h1 h2 h3
    by_cases hp : (repairPat p).isPrefixOf (c :: rest) = true
    · simp only [splitFirst, hp, if_pos] at h1
      obtain ⟨rfl, hdrop⟩ :
          ([] : List Char) = pre ∧
            (c :: rest).drop (repairPat p).length =
              content ++ fileCloseLit ++ post := by
        simpa using h1
      have hmatch : repairMatchAt p (c :: rest) = some post := by
        unfold repairMatchAt
        rw [if_pos hp, hdrop, h2]
      rw [repairReplaceAux_cons, hmatch]
      dsimp only
      rw [repairReplace_noMatch p repl h3]
      simp
    · simp only [splitFirst, hp] at h1
      cases hrec : splitFirst (repairPat p) rest with
      | none => simp [hrec] at h1
      | some ab =>
        obtain ⟨a2, b2⟩ := ab
        simp only [hrec] at h1
        obtain ⟨rfl, hb⟩ :
            c :: a2 = pre ∧ b2 = content ++ fileCloseLit ++ post := by simpa using h1
        subst hb
        have hmatch : repairMatchAt p (c :: rest) = none := by
          unfold repairMatchAt
          rw [if_neg hp]
        rw [repairReplaceAux_cons, hmatch]
        dsimp only
        rw [ih hrec h2 h3]
        simp

/-! ### Session-level observations -/

theorem sessionPost_generatedCode (isEdit : Bool) (chunks : List (List Char)) :
    (processChunks isEdit initState chunks).1.generatedCode = chunks.flatten := by
  rw [processChunks_generatedCode]
  simp [initState]

/-- The session's extracted record set is a function of the concatenated
stream text alone. -/
theorem sessionPost_files (isEdit : Bool) (chunks : List (List Char))
    (completion : List Char → Option (List Char)) :
    (sessionPost isEdit chunks completion).files =
      (extractFilesAux chunks.flatten).map (fun pc => (pc.1, jsTrim pc.2)) := by
  show (postFilePass isEdit (processChunks isEdit initState chunks).1).files = _
  unfold postFilePass
  rw [filePassAux_files, sessionPost_generatedCode]

/-- The post-stream phase emits exactly one component/app event per matching
extracted record. -/
theorem sessionPost_compApp (isEdit : Bool) (chunks : List (List Char))
    (completion : List Char → Option (List Char)) :
    countEvents PEvent.isCompOrApp (sessionPost isEdit chunks completion).events =
      recordEventCount (extractFilesAux chunks.flatten) := by
  unfold sessionPost
  rw [runPost_events_eq]
  simp only [countEvents, List.filter_append]
  rw [finalConvEvents_filter _ (fun t => rfl)]
  rw [postPkgStep_events_filter _ (fun n m => rfl)]
  rw [postRecovery_events_filter _ (fun m => rfl) (fun m w => rfl)]
  unfold postFilePass
  have hc := filePassAux_compApp_count isEdit
    (processChunks isEdit initState chunks).1.componentCount
    (extractFilesAux (processChunks isEdit initState chunks).1.generatedCode)
    (postPkgStep isEdit (processChunks isEdit initState chunks).1).1
  simp only [countEvents] at hc
  simp only [List.nil_append, List.length_append]
  rw [hc, sessionPost_generatedCode]
  simp [postCompleteEvent, PEvent.isCompOrApp]

theorem sessionPost_explanation (isEdit : Bool) (chunks : List (List Char))
    (completion : List Char → Option (List Char)) :
    (sessionPost isEdit chunks completion).explanation =
      explanationValue chunks.flatten := by
  show explanationValue (processChunks isEdit initState chunks).1.generatedCode = _
  rw [sessionPost_generatedCode]

/-- The names of the session's package events are exactly the collected
package list, in order. -/
theorem session_packageNames (isEdit : Bool) (editPhase : List PreEvent)
    (chunks : List (List Char)) (completion : List Char → Option (List Char)) :
    packageNames (tryEvents isEdit editPhase chunks completion) =
      (sessionPost isEdit chunks completion).packagesToInstall := by
  rw [tryEvents_decomp, packageNames_append]
  unfold tryInitEvents
  simp only [packageNames, packageNames_append]
  rw [finalConvEvents_packageNames, postRecovery_packageNames]
  have hpre : packageNames (if isEdit = true then editPhase.map PreEvent.toPEvent else []) = [] := by
    by_cases he : isEdit = true
    · subst he; simp only [if_true]; exact preEvents_packageNames _
    · rw [Bool.not_eq_true] at he; subst he; simp [packageNames]
  rw [hpre]
  show _ = (postFilePass isEdit (processChunks isEdit initState chunks).1).packagesToInstall
  unfold postFilePass
  rw [filePassAux_packages, postPkgStep_fst]
  have hstream := processChunks_packages isEdit chunks initState
  rw [hstream]
  simp [packageNames, postCompleteEvent, List.append_assoc, initState]

/-- The collected package list never contains duplicates. -/
theorem sessionPost_packages_nodup (isEdit : Bool) (chunks : List (List Char))
    (completion : List Char → Option (List Char)) :
    (sessionPost isEdit chunks completion).packagesToInstall.Nodup := by
  show (postFilePass isEdit (processChunks isEdit initState chunks).1).packagesToInstall.Nodup
  unfold postFilePass
  apply filePassAux_nodup
  apply postPkgStep_nodup
  apply processChunks_nodup
  simp [initState]

/-- Every name listed in a `<packages>` block of the output is collected
(edit sessions). -/
theorem sessionPost_mem_blocks (chunks : List (List Char))
    (completion : List Char → Option (List Char)) {n : List Char}
    (h : n ∈ (packagesBlocksAux chunks.flatten).foldl
      (fun acc b => acc ++ packagesListOf b) []) :
    n ∈ (sessionPost true chunks completion).packagesToInstall := by
  show n ∈ (postFilePass true (processChunks true initState chunks).1).packagesToInstall
  unfold postFilePass
  apply filePassAux_mem_mono
  apply postPkgStep_mem_blocks
  rw [sessionPost_generatedCode]
  exact h

/-- Every package referenced by an import statement of an extracted record is
collected (edit sessions). -/
theorem sessionPost_mem_imports (chunks : List (List Char))
    (completion : List Char → Option (List Char)) {pc : List Char × List Char}
    (hpc : pc ∈ extractFilesAux chunks.flatten) {n : List Char}
    (hn : n ∈ extractPackagesFromCode (jsTrim pc.2)) :
    n ∈ (sessionPost true chunks completion).packagesToInstall := by
  show n ∈ (postFilePass true (processChunks true initState chunks).1).packagesToInstall
  unfold postFilePass
  apply filePassAux_mem_imports _ _ _ pc _ n hn
  rw [sessionPost_generatedCode]
  exact hpc

/-- When every repair call fails, the output is returned unchanged. -/
theorem sessionPost_code_fail (isEdit : Bool) (chunks : List (List Char)) :
    (sessionPost isEdit chunks (fun _ => none)).code = chunks.flatten := by
  show (postRecovery (fun _ => none)
    (processChunks isEdit initState chunks).1.generatedCode).code = _
  rw [postRecovery_code_fail, sessionPost_generatedCode]

/-- When every repair call fails, each attempted file is named in a warning
event of the session. -/
theorem sessionPost_fail_warning (isEdit : Bool) (chunks : List (List Char)) :
    ∀ f ∈ (sessionPost isEdit chunks (fun _ => none)).repairList,
      PEvent.warning (str "Could not auto-complete " ++ f ++
        str ". Manual review may be needed.") [] ∈
        (sessionPost isEdit chunks (fun _ => none)).events := by
  intro f hf
  have hmem := postRecovery_fail_warning
    (processChunks isEdit initState chunks).1.generatedCode f hf
  show _ ∈ (runPost isEdit (fun _ => none) (processChunks isEdit initState chunks).1).events
  rw [runPost_events_eq]
  simp only [List.mem_append]
  left; right; right; right
  exact hmem

/-! ### Concrete sessions used by the claims -/

/-- A completion oracle whose every follow-up call fails. -/
def noCompletion : List Char → Option (List Char) := fun _ => none

/-- One component record delivered as a single chunk. -/
def chunkedOne : List (List Char) := [str "<file path=\"components/A.jsx\">x</file>"]

/-- The same total text split inside the opening marker. -/
def chunkedTwo : List (List Char) :=
  [str "<fi", str "le path=\"components/A.jsx\">x</file>"]

/-- Scenario B of the spec delivered as a single chunk. -/
def scenarioB1 : List (List Char) := [str "Sure, here is your code: <file path=\"x.txt\">"]

/-- Scenario B with the conversational prefix in its own chunk. -/
def scenarioB2 : List (List Char) :=
  [str "Sure, here is your code: ", str "<file path=\"x.txt\">"]

/-- Two records with the same path: the first truncated, the second intact. -/
def dupPathText : List Char :=
  str "<file path=\"a.jsx\">function f(</file><file path=\"a.jsx\">export default function A()\x7breturn 1\x7d</file>"

/-- A repair oracle returning a fixed replacement body. -/
def dupPathRepair : List Char → Option (List Char) :=
  fun _ => some (str "export default function A()\x7breturn 2\x7d")

/-- A single truncated record, used for the repair-failure claims. -/
def truncOnly : List (List Char) := [str "<file path=\"a.jsx\">function f(</file>"]

/-- An edit-session stream declaring `axios` both through a `<package>`
directive and through an import statement in a file payload. -/
def axiosChunks : List (List Char) :=
  [str "<package>axios</package><file path=\"src/A.jsx\">import axios from \"axios\"</file>"]

/-! ### The claims -/

/-- C1 (counterexample): the same total text `<file path="components/A.jsx">x</file>`
contains exactly one file record, yet delivered as one chunk the session emits
two component/app completion events (one streaming, one post-stream), and
split into two chunks it emits only one — the count is neither `N` nor
chunking-invariant. -/
theorem c1_counterexample :
    chunkedOne.flatten = chunkedTwo.flatten ∧
    countEvents PEvent.isCompOrApp (tryEvents false [] chunkedOne noCompletion) = 2 ∧
    countEvents PEvent.isCompOrApp (tryEvents false [] chunkedTwo noCompletion) = 1 ∧
    (extractFilesAux chunkedOne.flatten).length = 1 := by decide

/-- C1 (amended): the extracted (identity, payload) pairs are identical for
any two chunkings of the same total text, and the post-stream pass emits
exactly `N` component/app completion events for the `N` matching records;
only the streaming pass's extra events vary with chunking. -/
theorem c1_chunk_invariance (cs1 cs2 : List (List Char))
    (completion : List Char → Option (List Char)) (h : cs1.flatten = cs2.flatten) :
    (sessionPost false cs1 completion).files = (sessionPost false cs2 completion).files ∧
    countEvents PEvent.isCompOrApp (sessionPost false cs1 completion).events =
      recordEventCount (extractFilesAux cs1.flatten) := by
  constructor
  · rw [sessionPost_files, sessionPost_files, h]
  · exact sessionPost_compApp false cs1 completion

/-- C1 (witness): the amended statement applied to the concrete chunkings
`["ab"]` and `["a", "b"]`. -/
theorem c1_chunk_invariance_witness :
    (sessionPost false [str "ab"] noCompletion).files =
      (sessionPost false [str "a", str "b"] noCompletion).files ∧
    countEvents PEvent.isCompOrApp (sessionPost false [str "ab"] noCompletion).events =
      recordEventCount (extractFilesAux ([str "ab"]).flatten) :=
  c1_chunk_invariance [str "ab"] [str "a", str "b"] noCompletion (by decide)

/-- C2 (counterexample): for Scenario B delivered as a single chunk, the
session emits zero conversation events (the conversational prefix shares the
chunk with the open marker, so it is never buffered) and makes zero repair
attempts — not the one conversation event and one repair attempt claimed. -/
theorem c2_counterexample :
    countEvents PEvent.isConversation (tryEvents false [] scenarioB1 noCompletion) = 0 ∧
    (sessionPost false scenarioB1 noCompletion).repairCalls = 0 := by decide

/-- C2 (amended): for Scenario B with the conversational prefix delivered
before the chunk carrying the open marker, the session emits exactly one
conversation event "Sure, here is your code:", detects the unclosed record as
the single truncation warning, but makes no repair attempt (the empty `.txt`
record meets none of the per-file truncation criteria); the final output
keeps the truncated record unchanged and the session still completes, with
the warning reported in the `complete` event. -/
theorem c2_amended :
    ((tryEvents false [] scenarioB2 noCompletion).filter PEvent.isConversation) =
      [PEvent.conversation (str "Sure, here is your code:")] ∧
    (sessionPost false scenarioB2 noCompletion).warnings = [unclosedMsg 1 0] ∧
    (sessionPost false scenarioB2 noCompletion).repairCalls = 0 ∧
    (sessionPost false scenarioB2 noCompletion).code = scenarioB2.flatten ∧
    countEvents PEvent.isComplete (tryEvents false [] scenarioB2 noCompletion) = 1 := by
  decide

/-- C3 (counterexample): for a single-chunk stream with one component record,
the streaming pass emits one component/app event and the post-stream pass —
re-running over the already-scanned output — emits one more for the same
record: two events for one record, so the post pass does not add none. -/
theorem c3_counterexample :
    countEvents PEvent.isCompOrApp (processChunks false initState chunkedOne).2 = 1 ∧
    countEvents PEvent.isCompOrApp (sessionPost false chunkedOne noCompletion).events = 1 ∧
    (extractFilesAux chunkedOne.flatten).length = 1 := by decide

/-- C3 (amended): the post-stream pass over the already-scanned output emits
exactly one further component/app event per matching record (not none): the
session total is the streaming-pass count plus one per matching record.
Within the post-stream pass itself each record is visited exactly once. -/
theorem c3_post_pass_reemits (chunks : List (List Char))
    (completion : List Char → Option (List Char)) :
    countEvents PEvent.isCompOrApp (tryEvents false [] chunks completion) =
      countEvents PEvent.isCompOrApp (processChunks false initState chunks).2 +
        recordEventCount (extractFilesAux chunks.flatten) := by
  have hpost := sessionPost_compApp false chunks completion
  rw [tryEvents_decomp]
  unfold tryInitEvents
  simp only [countEvents, List.filter_append, List.filter_cons, List.length_append,
    Bool.false_eq_true, if_false] at hpost ⊢
  have hs : PEvent.isCompOrApp (PEvent.status (str "Initializing AI...")) = false := rfl
  have hs2 : PEvent.isCompOrApp (PEvent.status (str "Planning application structure...")) = false := rfl
  simp only [hs, hs2, Bool.false_eq_true, if_false, List.nil_append, List.length_append]
  have hconv := finalConvEvents_filter PEvent.isCompOrApp (fun t => rfl)
    (processChunks false initState chunks).1
  have hpkg := postPkgStep_events_filter PEvent.isCompOrApp (fun n m => rfl) false
    (processChunks false initState chunks).1
  have hrec := postRecovery_events_filter PEvent.isCompOrApp (fun m => rfl) (fun m w => rfl)
    noCompletion (processChunks false initState chunks).1.generatedCode
  have hce : PEvent.isCompOrApp
      (postCompleteEvent false completion (processChunks false initState chunks).1) = false := by
    simp [postCompleteEvent, PEvent.isCompOrApp]
  rw [hconv]
  rw [postPkgStep_events_filter PEvent.isCompOrApp (fun n m => rfl)]
  rw [postRecovery_events_filter PEvent.isCompOrApp (fun m => rfl) (fun m w => rfl)]
  unfold postFilePass
  have hfp := filePassAux_compApp_count false
    (processChunks false initState chunks).1.componentCount
    (extractFilesAux (processChunks false initState chunks).1.generatedCode)
    (postPkgStep false (processChunks false initState chunks).1).1
  simp only [countEvents] at hfp
  rw [hfp, sessionPost_generatedCode]
  simp only [List.filter_cons, hce, Bool.false_eq_true, if_false]
  simp

/-- C4 (counterexample): with two records sharing the path `a.jsx` — the first
truncated, the second intact — the repair of the first record also rewrites
the second record's span (the replacement regex is global in the path), so a
previously extracted intact record is not left byte-for-byte unchanged. -/
theorem c4_counterexample :
    (sessionPost false [dupPathText] dupPathRepair).repairList = [str "a.jsx"] ∧
    extractFilesAux dupPathText =
      [(str "a.jsx", str "function f("),
       (str "a.jsx", str "export default function A()\x7breturn 1\x7d")] ∧
    containsSub (str "export default function A()\x7breturn 1\x7d") dupPathText = true ∧
    containsSub (str "export default function A()\x7breturn 1\x7d")
      (sessionPost false [dupPathText] dupPathRepair).code = false := by decide

/-- C4 (amended): the repair splice replaces exactly the spans matching the
faulted path's pattern: when the faulted record's opening marker first occurs
at its span, the span's payload contains no close marker, and the marker does
not recur afterwards, the output around the span — and hence every other
record in it — is byte-for-byte unchanged. -/
theorem c4_repair_locality (p newContent gc pre content post : List Char)
    (h1 : splitFirst (repairPat p) gc = some (pre, content ++ fileCloseLit ++ post))
    (h2 : splitFirst fileCloseLit (content ++ fileCloseLit ++ post) = some (content, post))
    (h3 : containsSub (repairPat p) post = false) :
    repairReplaceAux p (repairedRecord p newContent) gc =
      pre ++ repairedRecord p newContent ++ post :=
  repairReplace_frame p (repairedRecord p newContent) h1 h2 h3

/-- C4 (witness): the amended statement applied to a faulted `a.jsx` record
followed by an intact `b.jsx` record, which is preserved byte-for-byte. -/
theorem c4_repair_locality_witness :
    repairReplaceAux (str "a.jsx") (repairedRecord (str "a.jsx") (str "NEW"))
        (str "<file path=\"a.jsx\">f(</file><file path=\"b.jsx\">ok</file>") =
      [] ++ repairedRecord (str "a.jsx") (str "NEW") ++ str "<file path=\"b.jsx\">ok</file>" :=
  c4_repair_locality (str "a.jsx") (str "NEW")
    (str "<file path=\"a.jsx\">f(</file><file path=\"b.jsx\">ok</file>")
    [] (str "f(") (str "<file path=\"b.jsx\">ok</file>")
    (by decide) (by decide) (by decide)

/-- C5 (code bug): in every fresh-generation session the trailing look-back
buffer is not bounded at all — after any chunk list it holds the entire
concatenated stream, because `lastIndex` stays `0` whenever the package
scanner found no match and `searchText.substring(max(0, 0 - 50))` keeps
everything, contradicting the `Keep last 50 chars` comment at route.ts:1739. -/
theorem c5_tagBuffer_unbounded (chunks : List (List Char)) :
    (processChunks false initState chunks).1.tagBuffer = chunks.flatten := by
  rw [processChunks_tagBuffer_nonEdit]
  simp [initState]

/-- C6 (counterexample): a session whose stream fails after one event with an
error whose message contains "tool call validation failed" ends with zero
terminal events — the catch handler sends only a warning, so the claimed
"exactly one of complete/error" fails. -/
theorem c6_counterexample :
    countEvents PEvent.isTerminal
      (failedSessionEvents false [] [str "hi"] noCompletion 1
        (str "tool call validation failed: bad params")) = 0 := by decide

/-- C6 (amended): a session that runs to the end emits exactly one terminal
event (the `complete`); a session whose `try` block fails before the
`complete` event emits exactly one terminal event (the `error`) unless the
error message contains "tool call validation failed", in which case it emits
none — only a warning. -/
theorem c6_terminal_events (isEdit : Bool) (editPhase : List PreEvent)
    (chunks : List (List Char)) (completion : List Char → Option (List Char))
    (k : Nat) (msg : List Char)
    (hk : k < (tryEvents isEdit editPhase chunks completion).length) :
    countEvents PEvent.isTerminal (tryEvents isEdit editPhase chunks completion) = 1 ∧
    countEvents PEvent.isTerminal
        (failedSessionEvents isEdit editPhase chunks completion k msg) =
      (if containsSub (str "tool call validation failed") msg then 0 else 1) := by
  refine ⟨tryEvents_terminal_count isEdit editPhase chunks completion, ?_⟩
  unfold failedSessionEvents
  rw [countEvents_append, tryEvents_take_terminal isEdit editPhase chunks completion k hk]
  unfold catchEvents
  split_ifs <;> simp [countEvents, PEvent.isTerminal]

/-- C6 (witness): the amended statement applied to a concrete one-chunk
session failing after its first event with an ordinary error message. -/
theorem c6_terminal_events_witness :
    countEvents PEvent.isTerminal (tryEvents false [] [str "hi"] noCompletion) = 1 ∧
    countEvents PEvent.isTerminal
        (failedSessionEvents false [] [str "hi"] noCompletion 1 (str "boom")) =
      (if containsSub (str "tool call validation failed") (str "boom") then 0 else 1) :=
  c6_terminal_events false [] [str "hi"] noCompletion 1 (str "boom") (by decide)

/-- C7: if every repair follow-up call fails, the original output is returned
byte-for-byte unchanged, a warning naming each attempted file is emitted, and
the session is not aborted — it still sends exactly one `complete` event. -/
theorem c7_repair_failure (isEdit : Bool) (editPhase : List PreEvent)
    (chunks : List (List Char)) :
    (sessionPost isEdit chunks (fun _ => none)).code = chunks.flatten ∧
    (∀ f ∈ (sessionPost isEdit chunks (fun _ => none)).repairList,
      PEvent.warning (str "Could not auto-complete " ++ f ++
        str ". Manual review may be needed.") [] ∈
        (sessionPost isEdit chunks (fun _ => none)).events) ∧
    countEvents PEvent.isComplete (tryEvents isEdit editPhase chunks (fun _ => none)) = 1 :=
  ⟨sessionPost_code_fail isEdit chunks,
   sessionPost_fail_warning isEdit chunks,
   tryEvents_complete_count isEdit editPhase chunks (fun _ => none)⟩

/-- C7 (witness): the statement applied to a session containing one truncated
record `a.jsx`, whose repair is attempted and fails. -/
theorem c7_repair_failure_witness :
    (sessionPost false truncOnly (fun _ => none)).code = truncOnly.flatten ∧
    PEvent.warning (str "Could not auto-complete " ++ str "a.jsx" ++
      str ". Manual review may be needed.") [] ∈
      (sessionPost false truncOnly (fun _ => none)).events ∧
    countEvents PEvent.isComplete (tryEvents false [] truncOnly (fun _ => none)) = 1 :=
  ⟨(c7_repair_failure false [] truncOnly).1,
   (c7_repair_failure false [] truncOnly).2.1 (str "a.jsx") (by decide),
   (c7_repair_failure false [] truncOnly).2.2⟩

/-- C8: in a fresh-generation session (edit-mode flag false) no package event
is ever emitted, whatever the stream's payloads contain — all three
collection sources are guarded by the edit flag. -/
theorem c8_no_package_events (editPhase : List PreEvent) (chunks : List (List Char))
    (completion : List Char → Option (List Char)) :
    ((tryEvents false editPhase chunks completion).filter PEvent.isPackage) = [] := by
  rw [tryEvents_decomp, List.filter_append]
  unfold tryInitEvents
  simp only [List.filter_cons, List.filter_append, Bool.false_eq_true, if_false]
  rw [processChunks_events_noPackage_nonEdit]
  rw [finalConvEvents_filter _ (fun t => rfl)]
  rw [postPkgStep_nonEdit]
  unfold postFilePass
  rw [filePassAux_noPackage_nonEdit]
  rw [postRecovery_events_filter _ (fun m => rfl) (fun m w => rfl)]
  simp [postCompleteEvent, PEvent.isPackage]

/-- C9: in an edit session the package events carry exactly the collected
dependency list, which never contains duplicates — so every collected name is
announced by exactly one event — and every name declared through a
`<packages>` block or through an import statement of an extracted record is
collected. -/
theorem c9_dependency_dedup (editPhase : List PreEvent) (chunks : List (List Char))
    (completion : List Char → Option (List Char)) :
    packageNames (tryEvents true editPhase chunks completion) =
      (sessionPost true chunks completion).packagesToInstall ∧
    (sessionPost true chunks completion).packagesToInstall.Nodup ∧
    (∀ n, n ∈ (packagesBlocksAux chunks.flatten).foldl
        (fun acc b => acc ++ packagesListOf b) [] →
      n ∈ (sessionPost true chunks completion).packagesToInstall) ∧
    (∀ pc, pc ∈ extractFilesAux chunks.flatten →
      ∀ n, n ∈ extractPackagesFromCode (jsTrim pc.2) →
        n ∈ (sessionPost true chunks completion).packagesToInstall) :=
  ⟨session_packageNames true editPhase chunks completion,
   sessionPost_packages_nodup true chunks completion,
   fun n h => sessionPost_mem_blocks chunks completion h,
   fun pc hpc n hn => sessionPost_mem_imports chunks completion hpc hn⟩

/-- C9 (witness): the statement applied to an edit session declaring `axios`
both by a `<package>` directive and by an import statement: the event names
equal the duplicate-free collected list, and `axios` is collected. -/
theorem c9_dependency_dedup_witness :
    packageNames (tryEvents true [] axiosChunks noCompletion) =
      (sessionPost true axiosChunks noCompletion).packagesToInstall ∧
    (sessionPost true axiosChunks noCompletion).packagesToInstall.Nodup ∧
    str "axios" ∈ (sessionPost true axiosChunks noCompletion).packagesToInstall :=
  ⟨(c9_dependency_dedup [] axiosChunks noCompletion).1,
   (c9_dependency_dedup [] axiosChunks noCompletion).2.1,
   (c9_dependency_dedup [] axiosChunks noCompletion).2.2.2
     (str "src/A.jsx", str "import axios from \"axios\"") (by decide)
     (str "axios") (by decide)⟩

/-- C10 (counterexample): a stream whose output is exactly
`<explanation></explanation>` reaches `complete` with an empty explanation
field — the first explanation block exists but trims to the empty string, so
the field is not non-empty as claimed. -/
theorem c10_counterexample :
    explanationOf ([str "<explanation></explanation>"]).flatten = some [] ∧
    (sessionPost false [str "<explanation></explanation>"] noCompletion).explanation = [] := by
  decide

/-- C10 (amended): the `complete` event's explanation field equals the trimmed
content of the first `<explanation>…</explanation>` block of the concatenated
stream when one exists — possibly empty — and otherwise the non-empty default
"Code generated successfully!"; the session's final event is that `complete`
event. -/
theorem c10_explanation (isEdit : Bool) (editPhase : List PreEvent)
    (chunks : List (List Char)) (completion : List Char → Option (List Char)) :
    (sessionPost isEdit chunks completion).explanation =
      explanationValue chunks.flatten ∧
    (explanationOf chunks.flatten = none →
      (sessionPost isEdit chunks completion).explanation ≠ []) ∧
    (tryEvents isEdit editPhase chunks completion).getLast? =
      some (PEvent.complete (sessionPost isEdit chunks completion).code
        (sessionPost isEdit chunks completion).explanation
        (sessionPost isEdit chunks completion).files.length
        (processChunks isEdit initState chunks).1.componentCount
        (sessionPost isEdit chunks completion).packagesToInstall
        (sessionPost isEdit chunks completion).warnings) := by
  refine ⟨sessionPost_explanation isEdit chunks completion, ?_, ?_⟩
  · intro h
    rw [sessionPost_explanation]
    unfold explanationValue
    rw [h]
    simp [str]
  · rw [tryEvents_getLast]
    rfl

/-- C10 (witness): the amended statement applied to a stream with no
explanation block: the explanation is the non-empty default. -/
theorem c10_explanation_witness :
    (sessionPost false [str "hi"] noCompletion).explanation =
      explanationValue ([str "hi"]).flatten ∧
    (sessionPost false [str "hi"] noCompletion).explanation ≠ [] :=
  ⟨(c10_explanation false [] [str "hi"] noCompletion).1,
   (c10_explanation false [] [str "hi"] noCompletion).2.1 (by decide)⟩

end GenStream
